import Mathlib

/-!
# A verification development for the raw-TCP HTTP/1.1 server in `app/server.go`

Go strings and byte slices are byte sequences, embedded here as lists of natural
numbers (each below 256).  The library routines the server calls (`strings`, `strconv`,
`fmt`, `bufio`, `os`) are embedded by their documented behaviour; the three functions of
the program (`handleConnection`, `handleGetRequest`, `handlePostRequest`) are translated
statement by statement.

What the embedding leaves to the environment: `int` is 64 bits wide; `conn.Write` delivers
all its bytes, so the output of a connection is the concatenation of the writes; the log
lines printed with `fmt.Println` are not part of the output; `make([]byte, n)` panics for
`n < 0` and is taken to succeed for every `n >= 0` (the run time also panics above its
allocation limit `maxAlloc`; a theorem about an upload that succeeds states that bound); `file.Stat` on a file just opened does not fail; a
stream is a finite sequence of non-empty segments followed by the end of the stream, each
`conn.Read` delivering bytes of one segment only.
-/

set_option autoImplicit false

namespace HttpServer

/-- A Go `string` or `[]byte`. -/
abbrev Bytes := List Nat

/-- The bytes of an ASCII literal. -/
def ascii (s : String) : Bytes := s.toList.map Char.toNat

/-! ## `strings` -/

/-- ASCII white space as in Go: tab, newline, vertical tab, form feed, carriage return, space. -/
def asciiSpace (a : Nat) : Bool :=
  a == 9 || a == 10 || a == 11 || a == 12 || a == 13 || a == 32

/-- Two-byte UTF-8 encodings of white space: U+0085 and U+00A0. -/
def space2 (a b : Nat) : Bool :=
  a == 0xC2 && (b == 0x85 || b == 0xA0)

/-- Three-byte UTF-8 encodings of white space: U+1680, U+2000..U+200A, U+2028, U+2029,
U+202F, U+205F, U+3000. -/
def space3 (a b c : Nat) : Bool :=
  (a == 0xE1 && b == 0x9A && c == 0x80) ||
  (a == 0xE2 && b == 0x80 && ((0x80 ≤ c && c ≤ 0x8A) || c == 0xA8 || c == 0xA9 || c == 0xAF)) ||
  (a == 0xE2 && b == 0x81 && c == 0x9F) ||
  (a == 0xE3 && b == 0x80 && c == 0x80)

/-- Width in bytes of the white-space rune (`unicode.IsSpace`) encoded at the front of the
string, 0 when the string does not start with one. -/
def spaceLen : Bytes → Nat
  | [] => 0
  | a :: r =>
    if asciiSpace a then 1
    else match r with
      | [] => 0
      | b :: r2 =>
        if space2 a b then 2
        else match r2 with
          | [] => 0
          | c :: _ => if space3 a b c then 3 else 0

/-- Width in bytes of the white-space rune encoded at the END of a string, the string
being given reversed (last byte first). -/
def spaceLenRev : Bytes → Nat
  | [] => 0
  | a :: r =>
    if asciiSpace a then 1
    else match r with
      | [] => 0
      | b :: r2 =>
        if space2 b a then 2
        else match r2 with
          | [] => 0
          | c :: _ => if space3 c b a then 3 else 0

/-- Drop leading runes while `width` finds one at the front; `skip` counts the bytes of the
current rune that are still to be dropped. -/
def dropRunes (width : Bytes → Nat) : Nat → Bytes → Bytes
  | _, [] => []
  | skip + 1, _ :: r => dropRunes width skip r
  | 0, a :: r => if width (a :: r) = 0 then a :: r else dropRunes width (width (a :: r) - 1) r

/-- Leading white space removed (`strings.TrimLeftFunc(s, unicode.IsSpace)`). -/
def TrimLeft (s : Bytes) : Bytes := dropRunes spaceLen 0 s

/-- Trailing white space removed (`strings.TrimRightFunc(s, unicode.IsSpace)`). -/
def TrimRight (s : Bytes) : Bytes := (dropRunes spaceLenRev 0 s.reverse).reverse

/-- Go `strings.TrimSpace`: leading and trailing Unicode white space removed. -/
def TrimSpace (s : Bytes) : Bytes := TrimRight (TrimLeft s)

/-- Worker of `Fields`: `cur` is the token being collected, `skip` the bytes of the current
white-space rune still to be passed over. -/
def fieldsGo : Nat → Bytes → Bytes → List Bytes
  | _, cur, [] => if cur = [] then [] else [cur]
  | skip + 1, cur, _ :: r => fieldsGo skip cur r
  | 0, cur, a :: r =>
    if spaceLen (a :: r) = 0 then fieldsGo 0 (cur ++ [a]) r
    else (if cur = [] then [] else [cur]) ++ fieldsGo (spaceLen (a :: r) - 1) [] r

/-- Go `strings.Fields`: the maximal runs of non-white-space runes. -/
def Fields (s : Bytes) : List Bytes := fieldsGo 0 [] s

/-- Split at the first occurrence of the byte `d`: the text before it and the text after
it; `none` when `d` does not occur. -/
def cutByte (d : Nat) : Bytes → Option (Bytes × Bytes)
  | [] => none
  | a :: r =>
    if a = d then some ([], r)
    else match cutByte d r with
      | none => none
      | some p => some (a :: p.1, p.2)

/-- Go `strings.SplitN(s, ":", 2)`: either the single piece `s` (no colon) or the two pieces
around the first colon. -/
def SplitN2 (s : Bytes) : List Bytes :=
  match cutByte 58 s with
  | none => [s]
  | some p => [p.1, p.2]

/-- Worker of `Split`, `cur` being the piece collected so far. -/
def splitGo (d : Nat) : Bytes → Bytes → List Bytes
  | cur, [] => [cur]
  | cur, a :: r => if a = d then cur :: splitGo d [] r else splitGo d (cur ++ [a]) r

/-- Go `strings.Split(s, ",")`: all pieces between commas (one empty piece for the empty
string). -/
def Split (s : Bytes) : List Bytes := splitGo 44 [] s

/-- Go `strings.HasPrefix`. -/
def HasPrefix (s p : Bytes) : Bool := p.isPrefixOf s

/-- Go `strings.TrimPrefix`: `s` without the leading `p`, or `s` itself when it does not
start with `p`. -/
def TrimPrefix (s p : Bytes) : Bytes := if p.isPrefixOf s then s.drop p.length else s

/-! ## `strconv` and `fmt` -/

/-- Most significant digits first, `acc` holding the digits already produced. -/
def itoaGo : Nat → Nat → Bytes → Bytes
  | 0, _, acc => acc
  | fuel + 1, n, acc =>
    if n < 10 then (48 + n) :: acc else itoaGo fuel (n / 10) ((48 + n % 10) :: acc)

/-- The verb `%d` applied to a non-negative integer: its decimal digits. -/
def itoa (n : Nat) : Bytes := itoaGo (n + 1) n []

/-- Value of a non-empty string of decimal digits, `none` for anything else. -/
def digitsVal : Nat → Bytes → Option Nat
  | _, [] => none
  | acc, [a] => if 48 ≤ a ∧ a ≤ 57 then some (acc * 10 + (a - 48)) else none
  | acc, a :: b :: r =>
    if 48 ≤ a ∧ a ≤ 57 then digitsVal (acc * 10 + (a - 48)) (b :: r) else none

/-- Go `strconv.Atoi` on a 64-bit platform: an optional sign followed by one or more
decimal digits, the value within the range of `int64`; `none` stands for a non-nil error. -/
def Atoi (s : Bytes) : Option Int :=
  match s with
  | [] => none
  | a :: r =>
    if a = 45 then
      match digitsVal 0 r with
      | none => none
      | some v => if v ≤ 2 ^ 63 then some (-(v : Int)) else none
    else
      match digitsVal 0 (if a = 43 then r else a :: r) with
      | none => none
      | some v => if v < 2 ^ 63 then some (v : Int) else none

/-- The flag characters of a format verb: `#`, `0`, `+`, `-` and space. -/
def isFlag (c : Nat) : Bool := c == 35 || c == 48 || c == 43 || c == 45 || c == 32

/-- Pass over the flags that follow a `%`. -/
def skipFlags : Bytes → Bytes
  | [] => []
  | c :: r => if isFlag c then skipFlags r else c :: r

/-- Worker of `parsenum`: `num` is the value read so far. A number that has grown beyond
one million when a further digit comes makes the scan give up at the end of the region. -/
def parsenumGo : Nat → Bool → Bytes → Bool × Bytes
  | _, isnum, [] => (isnum, [])
  | num, isnum, c :: r =>
    if 48 ≤ c ∧ c ≤ 57 then
      if 1000000 < num then (false, []) else parsenumGo (num * 10 + (c - 48)) true r
    else (isnum, c :: r)

/-- The scanner `parsenum` of package `fmt`: whether a number stands at the front, and what
follows it. -/
def parsenum (s : Bytes) : Bool × Bytes := parsenumGo 0 false s

/-- The scanner `argNumber` of package `fmt` when no operand was passed: an explicit index
`[n]` is passed over and is never good. Returns what follows, whether a well-formed index was
found, and whether the argument number is still good. -/
def argNumber (s : Bytes) : Bytes × Bool × Bool :=
  match s with
  | 91 :: r =>
    if s.length < 3 then (r, false, false)
    else match cutByte 93 r with
      | none => (r, false, false)
      | some p => (p.2, (parsenum p.1).1 && (parsenum p.1).2 == [], false)
  | _ => (s, false, true)

/-- Width in bytes of the valid UTF-8 encoding at the front of the string, 0 when the front
is not a valid encoding (`utf8.DecodeRuneInString` then yields U+FFFD of width 1). -/
def runeLen : Bytes → Nat
  | [] => 0
  | a :: r =>
    if a < 0x80 then 1
    else match r with
      | [] => 0
      | b :: r2 =>
        if 0xC2 ≤ a ∧ a ≤ 0xDF then (if 0x80 ≤ b ∧ b ≤ 0xBF then 2 else 0)
        else match r2 with
          | [] => 0
          | c :: r3 =>
            if 0xE0 ≤ a ∧ a ≤ 0xEF then
              (if (if a = 0xE0 then 0xA0 else 0x80) ≤ b ∧ b ≤ (if a = 0xED then 0x9F else 0xBF)
                  ∧ 0x80 ≤ c ∧ c ≤ 0xBF then 3 else 0)
            else match r3 with
              | [] => 0
              | d :: _ =>
                if 0xF0 ≤ a ∧ a ≤ 0xF4 then
                  (if (if a = 0xF0 then 0x90 else 0x80) ≤ b ∧ b ≤ (if a = 0xF4 then 0x8F else 0xBF)
                      ∧ 0x80 ≤ c ∧ c ≤ 0xBF ∧ 0x80 ≤ d ∧ d ≤ 0xBF then 4 else 0)
                else 0

/-- One verb of a format, the text after its `%` being given, when no operand was passed:
the text it prints and the rest of the format (`doPrintf` of package `fmt`). A dot opens a
precision only when a byte follows it; a dot that ends the format is the verb. -/
def verbSpec (s : Bytes) : Bytes × Bytes :=
  let a1 := argNumber (skipFlags s)
  -- width
  let w : Bytes × Bytes × Bool × Bool :=
    match a1.1 with
    | 42 :: r => (ascii "%!(BADWIDTH)", r, false, a1.2.2)
    | _ => ([], (parsenum a1.1).2, a1.2.1, a1.2.2 && !(a1.2.1 && (parsenum a1.1).1))
  -- precision
  let p : Bytes × Bytes × Bool × Bool :=
    match w.2.1 with
    | 46 :: c :: r =>
      let a2 := argNumber (c :: r)
      let good := w.2.2.2 && !w.2.2.1 && a2.2.2
      match a2.1 with
      | 42 :: r2 => (ascii "%!(BADPREC)", r2, false, good)
      | _ => ([], (parsenum a2.1).2, a2.2.1, good)
    | _ => ([], w.2.1, w.2.2.1, w.2.2.2)
  -- a late argument index
  let a3 : Bytes × Bool :=
    if p.2.2.1 then (p.2.1, p.2.2.2)
    else ((argNumber p.2.1).1, p.2.2.2 && (argNumber p.2.1).2.2)
  match a3.1 with
  | [] => (w.1 ++ p.1 ++ ascii "%!(NOVERB)", [])
  | c :: r =>
    let size := if runeLen (c :: r) = 0 then 1 else runeLen (c :: r)
    let verb := if runeLen (c :: r) = 0 then [0xEF, 0xBF, 0xBD] else (c :: r).take size
    let rest := (c :: r).drop size
    if c = 37 then (w.1 ++ p.1 ++ [37], rest)
    else if a3.2 then (w.1 ++ p.1 ++ ascii "%!" ++ verb ++ ascii "(MISSING)", rest)
    else (w.1 ++ p.1 ++ ascii "%!" ++ verb ++ ascii "(BADINDEX)", rest)

/-- Worker of `Sprintf`: plain text is copied, each `%` starts a verb. -/
def sprintfGo : Nat → Bytes → Bytes
  | 0, _ => []
  | _ + 1, [] => []
  | fuel + 1, c :: r =>
    if c = 37 then (verbSpec r).1 ++ sprintfGo fuel (verbSpec r).2 else c :: sprintfGo fuel r

/-- Go `fmt.Sprintf(format)` called with a format and NO operand, as `handleGetRequest` calls
it on the `User-Agent` value. -/
def Sprintf (format : Bytes) : Bytes := sprintfGo (format.length + 1) format

/-! ## `bufio.Reader` over a TCP connection -/

/-- Size of the buffer of `bufio.NewReader`. -/
def bufSize : Nat := 4096

/-- The read side of a connection seen through `bufio.NewReader(conn)`: `buf` holds the bytes
already fetched and not yet consumed, `conn` the segments that the coming calls of `conn.Read`
will deliver, in order; after the last segment every read fails (end of stream). An empty
segment stands for nothing. -/
structure Reader where
  buf : Bytes
  conn : List Bytes
  deriving DecidableEq

/-- All the bytes the reader can still deliver. -/
def Reader.all (r : Reader) : Bytes := r.buf ++ r.conn.flatten

/-- One `conn.Read(p)` with `len(p) = cap`: up to `cap` bytes of the next segment, the rest
of that segment staying in front; `none` at the end of the stream. -/
def connRead (cap : Nat) : List Bytes → Option (Bytes × List Bytes)
  | [] => none
  | [] :: cs => connRead cap cs
  | (a :: c) :: cs =>
    some ((a :: c).take cap, if (a :: c).drop cap = [] then cs else (a :: c).drop cap :: cs)

/-- Split after the first occurrence of the delimiter: the line with its delimiter, and the
rest. -/
def cutLine (d : Nat) : Bytes → Option (Bytes × Bytes)
  | [] => none
  | a :: r =>
    if a = d then some ([a], r)
    else match cutLine d r with
      | none => none
      | some p => some (a :: p.1, p.2)

/-- The loop of `ReadString` once the buffered bytes hold no delimiter: `acc` are the
fragments set aside because the buffer was full, `buf` the buffered bytes. Each round
fills the free part of the buffer with one `conn.Read` and searches the new bytes. -/
def readStringLoop (d : Nat) : Nat → Bytes → Bytes → List Bytes → Option Bytes × Reader
  | 0, _, _, conn => (none, ⟨[], conn⟩)
  | fuel + 1, acc, buf, conn =>
    let acc1 := if bufSize ≤ buf.length then acc ++ buf else acc
    let buf1 := if bufSize ≤ buf.length then [] else buf
    match connRead (bufSize - buf1.length) conn with
    | none => (none, ⟨[], []⟩)
    | some (got, conn1) =>
      match cutLine d got with
      | some (l, rest) => (some (acc1 ++ buf1 ++ l), ⟨rest, conn1⟩)
      | none => readStringLoop d fuel acc1 (buf1 ++ got) conn1

/-- Go `(*bufio.Reader).ReadString(delim)`: the bytes up to and including the first
delimiter, or `none` (a non-nil error) when the stream ends first. -/
def Reader.ReadString (r : Reader) (d : Nat) : Option Bytes × Reader :=
  match cutLine d r.buf with
  | some (l, rest) => (some l, ⟨rest, r.conn⟩)
  | none => readStringLoop d (r.conn.flatten.length + 1) [] r.buf r.conn

/-- Go `(*bufio.Reader).Read(p)` with `len(p) = n`: the bytes copied into `p` (at most `n`,
from the buffer when it holds any, otherwise from ONE `conn.Read`), or `none` for a non-nil
error. -/
def Reader.Read (r : Reader) (n : Nat) : Option Bytes × Reader :=
  if n = 0 then (some [], r)
  else if r.buf ≠ [] then (some (r.buf.take n), ⟨r.buf.drop n, r.conn⟩)
  else if bufSize ≤ n then
    match connRead n r.conn with
    | none => (none, ⟨[], []⟩)
    | some (got, conn1) => (some got, ⟨[], conn1⟩)
  else
    match connRead bufSize r.conn with
    | none => (none, ⟨[], []⟩)
    | some (got, conn1) => (some (got.take n), ⟨got.drop n, conn1⟩)

/-! ## The header map, the file store and the process environment -/

/-- A Go `map[string]string`, newest entry first. -/
abbrev Headers := List (Bytes × Bytes)

/-- The two-result lookup `v, ok := m[k]`. -/
def mapGet : Headers → Bytes → Option Bytes
  | [], _ => none
  | (k1, v) :: t, k => if k1 = k then some v else mapGet t k

/-- The assignment `m[k] = v`. -/
def mapSet (m : Headers) (k v : Bytes) : Headers := (k, v) :: m

/-- A path with every run of slashes collapsed to one slash, which is how path resolution
reads it. Dot segments and symbolic links are not resolved: two paths that differ in them
are two keys of the store. -/
def cleanPath : Bytes → Bytes
  | [] => []
  | a :: r => if a = 47 ∧ r.head? = some 47 then cleanPath r else a :: cleanPath r

/-- The file store behind `os.Open` and `os.Create`. `files` gives the content of the regular
file a cleaned path names (`none`: nothing can be opened there); `createErr` tells where
`os.Create` fails (missing directory, permissions); `writeLimit` the number of bytes after
which `file.Write` fails there, and `readLimit` the most bytes a single `file.Read` delivers
there (`none`: no limit). -/
structure FileStore where
  files : Bytes → Option Bytes
  createErr : Bytes → Bool
  writeLimit : Bytes → Option Nat
  readLimit : Bytes → Option Nat

/-- The content found by `os.Open(p)`, `none` for a non-nil error. -/
def FileStore.openFile (fs : FileStore) (p : Bytes) : Option Bytes := fs.files (cleanPath p)

/-- One `file.Read(b)` with `len(b) = n` at the start of a file of content `c`: the bytes
delivered, `none` for a non-nil error. A zero-length read delivers nothing without error;
otherwise delivering no byte is the end-of-file error. -/
def fileRead (c : Bytes) (limit : Option Nat) (n : Nat) : Option Bytes :=
  if n = 0 then some []
  else if c.take (min n (limit.getD n)) = [] then none
  else some (c.take (min n (limit.getD n)))

/-- The store after the file at `p` has been created or truncated and now holds `c`. -/
def FileStore.put (fs : FileStore) (p c : Bytes) : FileStore :=
  { fs with files := fun k => if k = cleanPath p then some c else fs.files k }

/-- The allocation limit of the Go run time on 64-bit Linux: `make([]byte, n)` panics
(`makeslice: len out of range`) for every `n` beyond it. -/
def maxAlloc : Nat := 2 ^ 48

/-- A byte slice of length `n` made by `make([]byte, n)` (all zero) into which `data` was
copied from the start. -/
def fillSlice (n : Nat) (data : Bytes) : Bytes := data ++ List.replicate (n - data.length) 0

/-- What the program takes from its process: the argument vector `os.Args`, and the gzip
writer of `compress/gzip` as a function from the text written to the compressed stream
(`none`: the write reports an error). -/
structure Env where
  args : List Bytes
  gzip : Bytes → Option Bytes

/-- The effect of handling one connection: the bytes written to the connection, the file
store and the reader afterwards, and whether the goroutine stopped in a run-time panic. -/
structure Outcome where
  out : Bytes
  fs : FileStore
  rd : Reader
  panicked : Bool

/-- A response written, and a normal return. -/
def reply (out : Bytes) (fs : FileStore) (rd : Reader) : Outcome := ⟨out, fs, rd, false⟩

/-- A run-time panic before anything was written. -/
def panicNow (fs : FileStore) (rd : Reader) : Outcome := ⟨[], fs, rd, true⟩

/-! ## The program -/

/-- The loop over `encodings` in `handleGetRequest`: is some piece `gzip` once trimmed. -/
def isGzip : List Bytes → Bool
  | [] => false
  | e :: r => if TrimSpace e = ascii "gzip" then true else isGzip r

/-- The function `handleGetRequest` of `server.go`. -/
def handleGetRequest (env : Env) (fs : FileStore) (rd : Reader) (path : Bytes)
    (headers : Headers) : Outcome :=
  if path = ascii "/" then
    reply (ascii "HTTP/1.1 200 OK\r\n\r\nHello, World!\n") fs rd
  else if path = ascii "/user-agent" then
    let userAgent0 := (mapGet headers (ascii "User-Agent")).getD []
    let userAgent := if userAgent0 = [] then ascii "Unknown" else userAgent0
    let body := Sprintf userAgent
    reply (ascii "HTTP/1.1 200 OK\r\nContent-Type: text/plain\r\nContent-Length: "
      ++ itoa body.length ++ ascii "\r\n\r\n" ++ body) fs rd
  else if HasPrefix path (ascii "/echo/") then
    let echoStr := TrimPrefix path (ascii "/echo/")
    match mapGet headers (ascii "Accept-Encoding") with
    | some val =>
      if isGzip (Split val) then
        match env.gzip echoStr with
        | none => reply (ascii "HTTP/1.1 500 Internal Server Error\r\n\r\n") fs rd
        | some body =>
          reply (ascii "HTTP/1.1 200 OK\r\nContent-Type: text/plain\r\nContent-Encoding: gzip\r\nContent-Length: "
            ++ itoa body.length ++ ascii "\r\n\r\n" ++ body) fs rd
      else
        reply (ascii "HTTP/1.1 200 OK\r\nContent-Type: text/plain\r\n\r\n") fs rd
    | none =>
      reply (ascii "HTTP/1.1 200 OK\r\nContent-Type: text/plain\r\nContent-Length: "
        ++ itoa echoStr.length ++ ascii "\r\n\r\n" ++ echoStr) fs rd
  else if HasPrefix path (ascii "/files/") then
    let fileName := TrimPrefix path (ascii "/files/")
    match env.args[2]? with
    | none => panicNow fs rd
    | some dir =>
      match fs.openFile (dir ++ fileName) with
      | none => reply (ascii "HTTP/1.1 404 Not Found\r\n\r\n") fs rd
      | some content =>
        let fileSize := content.length
        match fileRead content (fs.readLimit (cleanPath (dir ++ fileName))) fileSize with
        | none => reply (ascii "HTTP/1.1 404 Not Found\r\n\r\n") fs rd
        | some got =>
          reply (ascii "HTTP/1.1 200 OK\r\nContent-Type: application/octet-stream\r\nContent-Length: "
            ++ itoa fileSize ++ ascii "\r\n\r\n" ++ fillSlice fileSize got) fs rd
  else
    reply (ascii "HTTP/1.1 404 Not Found\r\n\r\nPath not found\n") fs rd

/-- The function `handlePostRequest` of `server.go`. -/
def handlePostRequest (env : Env) (fs : FileStore) (rd : Reader) (path : Bytes)
    (headers : Headers) : Outcome :=
  if HasPrefix path (ascii "/files") then
    let fileName := TrimPrefix path (ascii "/files/")
    match env.args[2]? with
    | none => panicNow fs rd
    | some dir =>
      let filePath := dir ++ ascii "/" ++ fileName
      match mapGet headers (ascii "Content-Length") with
      | none => reply (ascii "HTTP/1.1 411 Length Required\r\n\r\n") fs rd
      | some contentLengthStr =>
        match Atoi contentLengthStr with
        | none => reply (ascii "HTTP/1.1 400 Bad Request\r\n\r\n") fs rd
        | some contentLength =>
          if contentLength < 0 then panicNow fs rd
          else
            match rd.Read contentLength.toNat with
            | (none, rd1) => reply (ascii "HTTP/1.1 400 Bad Request\r\n\r\n") fs rd1
            | (some got, rd1) =>
              let body := fillSlice contentLength.toNat got
              if fs.createErr (cleanPath filePath) then
                reply (ascii "HTTP/1.1 500 Internal Server Error\r\n\r\n") fs rd1
              else
                match fs.writeLimit (cleanPath filePath) with
                | some k =>
                  if k < body.length then
                    reply (ascii "HTTP/1.1 500 Internal Server Error\r\n\r\n")
                      (fs.put filePath (body.take k)) rd1
                  else
                    reply (ascii "HTTP/1.1 201 Created\r\nContent-Type: text/plain\r\nContent-Length: "
                      ++ itoa body.length ++ ascii "\r\n\r\n" ++ body) (fs.put filePath body) rd1
                | none =>
                  reply (ascii "HTTP/1.1 201 Created\r\nContent-Type: text/plain\r\nContent-Length: "
                    ++ itoa body.length ++ ascii "\r\n\r\n" ++ body) (fs.put filePath body) rd1
  else
    reply (ascii "HTTP/1.1 404 Not Found\r\n\r\nPath not found\n") fs rd

/-- The header loop of `handleConnection`: read a line, stop at the first line that is empty
once trimmed, otherwise record the line when `SplitN` gives two pieces. `none` when a read
fails before the loop is left. -/
def readHeaders : Nat → Reader → Headers → Option Headers × Reader
  | 0, rd, _ => (none, rd)
  | fuel + 1, rd, headers =>
    match rd.ReadString 10 with
    | (none, rd1) => (none, rd1)
    | (some line, rd1) =>
      if TrimSpace line = [] then (some headers, rd1)
      else
        match SplitN2 (TrimSpace line) with
        | [name, value] => readHeaders fuel rd1 (mapSet headers (TrimSpace name) (TrimSpace value))
        | _ => readHeaders fuel rd1 headers

/-- A request as `handleConnection` has it in hand when it dispatches. -/
structure Request where
  method : Bytes
  path : Bytes
  headers : Headers
  deriving DecidableEq

/-- The first part of `handleConnection`: the request line and the header block. `none` on
each of the three paths that answer 400. -/
def readRequest (rd : Reader) : Option Request × Reader :=
  match rd.ReadString 10 with
  | (none, rd1) => (none, rd1)
  | (some requestLine, rd1) =>
    match Fields requestLine with
    | method :: path :: _ =>
      match readHeaders (rd1.all.length + 1) rd1 [] with
      | (none, rd2) => (none, rd2)
      | (some headers, rd2) => (some ⟨method, path, headers⟩, rd2)
    | _ => (none, rd1)

/-- The function `handleConnection` of `server.go`. -/
def handleConnection (env : Env) (fs : FileStore) (rd : Reader) : Outcome :=
  match readRequest rd with
  | (none, rd1) => reply (ascii "HTTP/1.1 400 Bad Request\r\n\r\n") fs rd1
  | (some req, rd1) =>
    if req.method = ascii "GET" then handleGetRequest env fs rd1 req.path req.headers
    else if req.method = ascii "POST" then handlePostRequest env fs rd1 req.path req.headers
    else reply (ascii "HTTP/1.1 405 Method Not Allowed\r\n\r\n") fs rd1

/-- A file store with no file, where every creation and write succeeds and reads are whole. -/
def emptyStore : FileStore := ⟨fun _ => none, fun _ => false, fun _ => none, fun _ => none⟩

/-- An environment started with the base directory `dir` as third argument, the gzip
writer standing for any compressor. -/
def envOf (dir : Bytes) (gzip : Bytes → Option Bytes) : Env :=
  ⟨[ascii "server", ascii "--directory", dir], gzip⟩

/-- A store holding `hello` at `/tmp/a` where a single read of that file delivers two
bytes. -/
def shortReadStore : FileStore :=
  ⟨fun p => if p = ascii "/tmp/a" then some (ascii "hello") else none, fun _ => false,
    fun _ => none, fun p => if p = ascii "/tmp/a" then some 2 else none⟩

/-! ## The request as the specification describes it -/

/-- The complete lines of a byte stream, each with its newline, `cur` being the line under
collection; what follows the last newline is not a line. -/
def linesGo : Bytes → Bytes → List Bytes
  | _, [] => []
  | cur, a :: r => if a = 10 then (cur ++ [a]) :: linesGo [] r else linesGo (cur ++ [a]) r

/-- The complete lines of a byte stream. -/
def linesOf (s : Bytes) : List Bytes := linesGo [] s

/-- Is the line empty once trimmed (the header terminator). -/
def isBlank (l : Bytes) : Bool := decide (TrimSpace l = [])

/-- The lines of the header block: the lines before the terminator. -/
def headerBlock (ls : List Bytes) : List Bytes := ls.takeWhile (fun l => !isBlank l)

/-- Does the line, cut at its first colon, carry the name `N` once trimmed. -/
def namesHeader (N : Bytes) (l : Bytes) : Bool :=
  match cutByte 58 l with
  | some p => decide (TrimSpace p.1 = N)
  | none => false

/-- The reference header mapping: `N` maps to the trimmed text after the first colon of the
LAST line of the block whose trimmed text before its first colon is `N`. -/
def specHeaders (block : List Bytes) (N : Bytes) : Option Bytes :=
  match block.reverse.find? (namesHeader N) with
  | some l => (cutByte 58 l).map fun p => TrimSpace p.2
  | none => none

/-- What one round of the header loop of `handleConnection` does to the map (the loop body,
named for the proofs). -/
def recordLine (headers : Headers) (line : Bytes) : Headers :=
  match SplitN2 (TrimSpace line) with
  | [name, value] => mapSet headers (TrimSpace name) (TrimSpace value)
  | _ => headers

/-- The connection is answered `400 Bad Request` before any request reaches a handler: no
request was read, exactly the 400 status line was written, the file store is as it was and
nothing panicked. -/
def Rejects (env : Env) (fs : FileStore) (rd : Reader) : Prop :=
  (readRequest rd).1 = none ∧
  (handleConnection env fs rd).out = ascii "HTTP/1.1 400 Bad Request\r\n\r\n" ∧
  (handleConnection env fs rd).fs = fs ∧
  (handleConnection env fs rd).panicked = false

/-! ## Reading a response back -/

/-- Worker of `parseResponse`: `cur` is the line under collection, `lines` the lines already
complete. -/
def parseGo : Bytes → List Bytes → Bytes → Option (List Bytes × Bytes)
  | _, _, [] => none
  | cur, lines, [a] => parseGo (cur ++ [a]) lines []
  | cur, lines, a :: b :: r =>
    if a = 13 ∧ b = 10 then
      (if cur = [] then some (lines, r) else parseGo [] (lines ++ [cur]) r)
    else parseGo (cur ++ [a]) lines (b :: r)

/-- A response as its reader frames it: the CRLF-terminated lines up to the first empty line
(status line first, then the header lines), and the body, which is everything after that
empty line. `none` when no empty line comes. -/
def parseResponse (out : Bytes) : Option (List Bytes × Bytes) := parseGo [] [] out

/-- Carriage return and line feed. -/
def crlf : Bytes := [13, 10]

/-- The bytes of a response with the given status and header lines and the given body: each
line closed by CRLF, an empty line, the body. -/
def render (lines : List Bytes) (body : Bytes) : Bytes :=
  (lines.map fun l => l ++ crlf).flatten ++ crlf ++ body

/-- The status lines of the program. -/
def statusLines : List Bytes :=
  [ascii "HTTP/1.1 200 OK", ascii "HTTP/1.1 201 Created", ascii "HTTP/1.1 400 Bad Request",
   ascii "HTTP/1.1 404 Not Found", ascii "HTTP/1.1 405 Method Not Allowed",
   ascii "HTTP/1.1 411 Length Required", ascii "HTTP/1.1 500 Internal Server Error"]

/-- The header blocks of the program, for a response of the given body. -/
def headerSets (body : Bytes) : List (List Bytes) :=
  [[],
   [ascii "Content-Type: text/plain"],
   [ascii "Content-Type: text/plain", ascii "Content-Length: " ++ itoa body.length],
   [ascii "Content-Type: text/plain", ascii "Content-Encoding: gzip",
    ascii "Content-Length: " ++ itoa body.length],
   [ascii "Content-Type: application/octet-stream", ascii "Content-Length: " ++ itoa body.length]]

/-- Either nothing was written, or what was written is one status line of the program, one
header block of the program, the empty line and a body. -/
def WellFramed (out : Bytes) : Prop :=
  out = [] ∨ ∃ st hs body, st ∈ statusLines ∧ hs ∈ headerSets body ∧ out = render (st :: hs) body

/-- The status codes with their reason phrases, as the status lines of the program spell
them. -/
def reasonPhrases : List Bytes :=
  [ascii "200 OK", ascii "201 Created", ascii "400 Bad Request", ascii "404 Not Found",
   ascii "405 Method Not Allowed", ascii "411 Length Required",
   ascii "500 Internal Server Error"]

/-- The header names of the responses. -/
def headerNames : List Bytes :=
  [ascii "Content-Type", ascii "Content-Length", ascii "Content-Encoding"]

/-- How a connection ends: in a panic with nothing written, or in a normal return after one
framed response was written. -/
def Settled (o : Outcome) : Prop :=
  (o.panicked = true ∧ o.out = []) ∨
  (o.panicked = false ∧
    ∃ st hs body, st ∈ statusLines ∧ hs ∈ headerSets body ∧ o.out = render (st :: hs) body)

/-! ## Notions used in the proofs about trimming -/

/-- A width function that never looks past the end, keeps its verdict when text is appended
after a rune it found, and finds nothing across or at the byte `c`. -/
structure Inert (w : Bytes → Nat) (c : Nat) : Prop where
  bound : ∀ s, w s ≤ s.length
  mono : ∀ s t, w s ≠ 0 → w (s ++ t) = w s
  stop : ∀ s t, w s = 0 → w (s ++ c :: t) = 0

/-- A reversed white-space rune: found whole from the end, and never joined by the bytes
that follow it towards the end. -/
structure Closes (v : Bytes) : Prop where
  whole : spaceLenRev v = v.length
  nonempty : v ≠ []
  apart : ∀ s, s ≠ [] → spaceLenRev s = 0 → spaceLenRev (s ++ v) = 0

/-! ## Reading lines: the segments of the stream do not matter -/

theorem cutLine_eq_some {d : Nat} {s l r : Bytes} (h : cutLine d s = some (l, r)) :
    s = l ++ r ∧ l ≠ [] := by
  induction s generalizing l r with
  | nil => simp [cutLine] at h
  | cons a t ih =>
    unfold cutLine at h
    split at h
    · simp at h; obtain ⟨rfl, rfl⟩ := h; simp
    · cases hc : cutLine d t with
      | none => simp [hc] at h
      | some p =>
        obtain ⟨p1, p2⟩ := p
        simp [hc] at h
        obtain ⟨rfl, rfl⟩ := h
        have := ih hc
        simp [this.1]

theorem cutLine_append (d : Nat) (a b : Bytes) :
    cutLine d (a ++ b) =
      match cutLine d a with
      | some p => some (p.1, p.2 ++ b)
      | none => match cutLine d b with
        | some p => some (a ++ p.1, p.2)
        | none => none := by
  induction a with
  | nil => cases h : cutLine d b <;> simp [cutLine, h]
  | cons x t ih =>
    by_cases hx : x = d
    · simp [cutLine, hx]
    · have e1 : cutLine d (x :: (t ++ b)) =
          match cutLine d (t ++ b) with
          | none => none
          | some p => some (x :: p.1, p.2) := by rw [cutLine, if_neg hx]
      have e2 : cutLine d (x :: t) =
          match cutLine d t with
          | none => none
          | some p => some (x :: p.1, p.2) := by rw [cutLine, if_neg hx]
      rw [List.cons_append, e1, e2, ih]
      cases h1 : cutLine d t with
      | some p => simp
      | none => cases h2 : cutLine d b <;> simp

theorem connRead_none {cap : Nat} {conn : List Bytes} (h : connRead cap conn = none) :
    conn.flatten = [] := by
  induction conn with
  | nil => rfl
  | cons c cs ih =>
    cases c with
    | nil => simp [connRead] at h; simpa using ih h
    | cons a t => simp [connRead] at h

theorem connRead_some {cap : Nat} {conn conn1 : List Bytes} {got : Bytes} (hcap : 0 < cap)
    (h : connRead cap conn = some (got, conn1)) :
    got ≠ [] ∧ got ++ conn1.flatten = conn.flatten ∧ got.length ≤ cap := by
  induction conn with
  | nil => simp [connRead] at h
  | cons c cs ih =>
    cases c with
    | nil => simp only [connRead] at h; simpa using ih h
    | cons a t =>
      simp only [connRead, Option.some.injEq, Prod.mk.injEq] at h
      obtain ⟨rfl, rfl⟩ := h
      refine ⟨?_, ?_, ?_⟩
      · obtain ⟨k, rfl⟩ : ∃ k, cap = k + 1 := ⟨cap - 1, by omega⟩
        simp
      · split
        · rename_i hd
          have : (a :: t).take cap = a :: t := by
            rw [List.take_of_length_le]
            have := List.drop_eq_nil_iff.mp hd
            simpa using this
          rw [this]; simp
        · simp only [List.flatten_cons, ← List.append_assoc, List.take_append_drop]
      · simp [List.length_take]

theorem readStringLoop_spec (d : Nat) (fuel : Nat) :
    ∀ (acc buf : Bytes) (conn : List Bytes), conn.flatten.length < fuel →
      cutLine d buf = none →
      (cutLine d conn.flatten = none → (readStringLoop d fuel acc buf conn).1 = none) ∧
      (∀ l r, cutLine d conn.flatten = some (l, r) →
        (readStringLoop d fuel acc buf conn).1 = some (acc ++ buf ++ l) ∧
        (readStringLoop d fuel acc buf conn).2.all = r) := by
  induction fuel with
  | zero => intro acc buf conn h; omega
  | succ f ih =>
    intro acc buf conn hlen hbuf
    have hcap : 0 < bufSize - (if bufSize ≤ buf.length then [] else buf).length := by
      split
      · simp [bufSize]
      · simp only [bufSize] at *; omega
    have hab : (if bufSize ≤ buf.length then acc ++ buf else acc)
        ++ (if bufSize ≤ buf.length then [] else buf) = acc ++ buf := by
      split <;> simp
    have hb1 : cutLine d (if bufSize ≤ buf.length then [] else buf) = none := by
      split
      · rfl
      · exact hbuf
    simp only [readStringLoop]
    generalize (if bufSize ≤ buf.length then acc ++ buf else acc) = acc1 at *
    generalize (if bufSize ≤ buf.length then [] else buf) = buf1 at *
    cases hr : connRead (bufSize - buf1.length) conn with
    | none =>
      have hnil := connRead_none hr
      simp [hnil, cutLine]
    | some p =>
      obtain ⟨got, conn1⟩ := p
      obtain ⟨hne, hcat, _⟩ := connRead_some hcap hr
      have hsplit := cutLine_append d got conn1.flatten
      rw [hcat] at hsplit
      cases hg : cutLine d got with
      | some q =>
        obtain ⟨l1, rest⟩ := q
        simp only [hg] at hsplit
        simp only [hsplit]
        constructor
        · intro h; simp at h
        · intro l r h
          simp only [Option.some.injEq, Prod.mk.injEq] at h
          obtain ⟨rfl, rfl⟩ := h
          simp only [hg, hab, Reader.all, and_self]
      | none =>
        simp only [hg] at hsplit
        have hlen1 : conn1.flatten.length < f := by
          have : got.length + conn1.flatten.length = conn.flatten.length := by
            rw [← hcat]; simp
          have : 0 < got.length := List.length_pos.mpr hne
          omega
        have hb2 : cutLine d (buf1 ++ got) = none := by
          rw [cutLine_append]; simp [hb1, hg]
        obtain ⟨ih1, ih2⟩ := ih acc1 (buf1 ++ got) conn1 hlen1 hb2
        simp only [hg]
        constructor
        · intro h
          apply ih1
          rw [hsplit] at h
          cases hc : cutLine d conn1.flatten with
          | none => rfl
          | some q => simp [hc] at h
        · intro l r h
          rw [hsplit] at h
          cases hc : cutLine d conn1.flatten with
          | none => simp [hc] at h
          | some q =>
            obtain ⟨l2, r2⟩ := q
            simp only [hc, Option.some.injEq, Prod.mk.injEq] at h
            obtain ⟨rfl, rfl⟩ := h
            obtain ⟨e1, e2⟩ := ih2 l2 r2 hc
            refine ⟨?_, e2⟩
            rw [e1, ← hab]; simp

/-- `ReadString` fails exactly when the remaining stream holds no delimiter. -/
theorem ReadString_none {d : Nat} {rd : Reader} (h : cutLine d rd.all = none) :
    (rd.ReadString d).1 = none := by
  unfold Reader.all at h
  rw [cutLine_append] at h
  unfold Reader.ReadString
  cases hb : cutLine d rd.buf with
  | some p => simp [hb] at h
  | none =>
    simp only [hb] at h ⊢
    refine (readStringLoop_spec d _ [] rd.buf rd.conn (Nat.lt_succ_self _) hb).1 ?_
    cases hc : cutLine d rd.conn.flatten with
    | none => rfl
    | some q => simp [hc] at h

/-- `ReadString` returns the first line of the remaining stream and leaves the rest of the
stream to be read, however the stream is cut into segments. -/
theorem ReadString_some {d : Nat} {rd : Reader} {l r : Bytes}
    (h : cutLine d rd.all = some (l, r)) :
    (rd.ReadString d).1 = some l ∧ (rd.ReadString d).2.all = r := by
  unfold Reader.all at h
  rw [cutLine_append] at h
  unfold Reader.ReadString
  cases hb : cutLine d rd.buf with
  | some p =>
    obtain ⟨l1, r1⟩ := p
    simp only [hb, Option.some.injEq, Prod.mk.injEq] at h
    obtain ⟨rfl, rfl⟩ := h
    simp [Reader.all]
  | none =>
    simp only [hb] at h ⊢
    cases hc : cutLine d rd.conn.flatten with
    | none => simp [hc] at h
    | some q =>
      obtain ⟨l2, r2⟩ := q
      simp only [hc, Option.some.injEq, Prod.mk.injEq] at h
      obtain ⟨rfl, rfl⟩ := h
      have := (readStringLoop_spec d _ [] rd.buf rd.conn (Nat.lt_succ_self _) hb).2 _ _ hc
      simpa using this

/-! ## The header loop over the lines of the stream -/

theorem linesGo_eq (cur s : Bytes) :
    linesGo cur s =
      match cutLine 10 s with
      | none => []
      | some p => (cur ++ p.1) :: linesGo [] p.2 := by
  induction s generalizing cur with
  | nil => simp [linesGo, cutLine]
  | cons a t ih =>
    by_cases ha : a = 10
    · simp [linesGo, cutLine, ha]
    · have e2 : cutLine 10 (a :: t) =
          match cutLine 10 t with
          | none => none
          | some p => some (a :: p.1, p.2) := by rw [cutLine, if_neg ha]
      rw [linesGo, if_neg ha, ih, e2]
      cases cutLine 10 t <;> simp

theorem linesOf_eq (s : Bytes) :
    linesOf s =
      match cutLine 10 s with
      | none => []
      | some p => p.1 :: linesOf p.2 := by
  unfold linesOf
  rw [linesGo_eq]
  cases cutLine 10 s <;> simp

theorem readHeaders_succ (f : Nat) (rd : Reader) (h : Headers) :
    readHeaders (f + 1) rd h =
      match rd.ReadString 10 with
      | (none, rd1) => (none, rd1)
      | (some line, rd1) =>
        if TrimSpace line = [] then (some h, rd1) else readHeaders f rd1 (recordLine h line) := by
  rw [readHeaders]
  cases rd.ReadString 10 with
  | mk o rd1 =>
    cases o with
    | none => rfl
    | some line =>
      simp only [recordLine]
      by_cases hb : TrimSpace line = []
      · simp [hb]
      · simp only [hb, if_false]
        split <;> simp_all

/-- With fuel beyond the length of the stream the header loop is decided by the lines of the
stream alone: it fails when no line is blank, and otherwise folds the lines of the header
block into the map. -/
theorem readHeaders_spec (fuel : Nat) :
    ∀ (rd : Reader) (h : Headers), rd.all.length < fuel →
      (readHeaders fuel rd h).1 =
        if (linesOf rd.all).any isBlank then
          some ((headerBlock (linesOf rd.all)).foldl recordLine h)
        else none := by
  induction fuel with
  | zero => intro rd h hl; omega
  | succ f ih =>
    intro rd h hl
    rw [linesOf_eq, readHeaders_succ]
    cases hc : cutLine 10 rd.all with
    | none =>
      have := ReadString_none hc
      cases hr : rd.ReadString 10 with
      | mk o rd1 =>
        rw [hr] at this
        simp only at this
        subst this
        simp
    | some p =>
      obtain ⟨l, r⟩ := p
      obtain ⟨e1, e2⟩ := ReadString_some hc
      obtain ⟨hs, hne⟩ := cutLine_eq_some hc
      cases hr : rd.ReadString 10 with
      | mk o rd1 =>
        rw [hr] at e1 e2
        simp only at e1 e2
        subst e1
        have hlen : rd1.all.length < f := by
          rw [e2]
          have : 0 < l.length := List.length_pos.mpr hne
          rw [hs] at hl
          simp at hl
          omega
        simp only [List.any_cons, headerBlock, List.takeWhile_cons]
        by_cases hb : TrimSpace l = []
        · simp [hb, isBlank]
        · have hb2 : isBlank l = false := by simp [isBlank, hb]
          simp only [hb, hb2, if_false, Bool.false_or, Bool.not_false, if_true, List.foldl_cons]
          have := ih rd1 (recordLine h l) hlen
          rw [e2] at this
          exact this

theorem readRequest_none {rd : Reader} (h : cutLine 10 rd.all = none) :
    (readRequest rd).1 = none := by
  have := ReadString_none h
  unfold readRequest
  cases hr : rd.ReadString 10 with
  | mk o rd1 =>
    rw [hr] at this
    simp only at this
    subst this
    rfl

/-- The request handed to the handlers, read off the bytes of the stream: the first two
tokens of the request line and the fold of the header block, provided a terminator line
comes; no request otherwise. -/
theorem readRequest_some {rd : Reader} {line rest : Bytes}
    (h : cutLine 10 rd.all = some (line, rest)) :
    (readRequest rd).1 =
      match Fields line with
      | method :: path :: _ =>
        if (linesOf rest).any isBlank then
          some ⟨method, path, (headerBlock (linesOf rest)).foldl recordLine []⟩
        else none
      | _ => none := by
  obtain ⟨e1, e2⟩ := ReadString_some h
  unfold readRequest
  cases hr : rd.ReadString 10 with
  | mk o rd1 =>
    rw [hr] at e1 e2
    simp only at e1 e2
    subst e1
    simp only
    split
    · rename_i method path more hf
      have hh := readHeaders_spec (rd1.all.length + 1) rd1 [] (Nat.lt_succ_self _)
      cases hr2 : readHeaders (rd1.all.length + 1) rd1 [] with
      | mk o2 rd2 =>
        rw [hr2, e2] at hh
        simp only at hh
        subst hh
        by_cases hb : (linesOf rest).any isBlank = true
        · simp only [hb, if_true]
        · simp [hb]
    · rfl

theorem HasPrefix_append (p s : Bytes) : HasPrefix (p ++ s) p = true := by
  unfold HasPrefix
  rw [List.isPrefixOf_iff_prefix]
  exact List.prefix_append p s

theorem TrimPrefix_append (p s : Bytes) : TrimPrefix (p ++ s) p = s := by
  have := HasPrefix_append p s
  unfold HasPrefix at this
  simp [TrimPrefix, this]

theorem isGzip_iff (l : List Bytes) :
    isGzip l = true ↔ ∃ t ∈ l, TrimSpace t = ascii "gzip" := by
  induction l with
  | nil => simp [isGzip]
  | cons e r ih =>
    unfold isGzip
    by_cases he : TrimSpace e = ascii "gzip"
    · simp [he]
    · simp [he, ih]

theorem ascii_root : ascii "/" = [47] := by decide

theorem ascii_user_agent : ascii "/user-agent" = [47, 117, 115, 101, 114, 45, 97, 103, 101, 110, 116] := by
  decide

theorem ascii_echo : ascii "/echo/" = [47, 101, 99, 104, 111, 47] := by decide

theorem ascii_files : ascii "/files" = [47, 102, 105, 108, 101, 115] := by decide

theorem ascii_files_slash : ascii "/files/" = [47, 102, 105, 108, 101, 115, 47] := by decide

theorem ascii_get_ne_post : ascii "POST" ≠ ascii "GET" := by decide

/-- The echo branch of `handleGetRequest` is the one taken on a path `/echo/<s>`. -/
theorem handleGetRequest_echo (env : Env) (fs : FileStore) (rd : Reader) (s : Bytes)
    (headers : Headers) :
    handleGetRequest env fs rd (ascii "/echo/" ++ s) headers =
      match mapGet headers (ascii "Accept-Encoding") with
      | some val =>
        if isGzip (Split val) then
          match env.gzip s with
          | none => reply (ascii "HTTP/1.1 500 Internal Server Error\r\n\r\n") fs rd
          | some body =>
            reply (ascii "HTTP/1.1 200 OK\r\nContent-Type: text/plain\r\nContent-Encoding: gzip\r\nContent-Length: "
              ++ itoa body.length ++ ascii "\r\n\r\n" ++ body) fs rd
        else
          reply (ascii "HTTP/1.1 200 OK\r\nContent-Type: text/plain\r\n\r\n") fs rd
      | none =>
        reply (ascii "HTTP/1.1 200 OK\r\nContent-Type: text/plain\r\nContent-Length: "
          ++ itoa s.length ++ ascii "\r\n\r\n" ++ s) fs rd := by
  have h1 : ascii "/echo/" ++ s ≠ ascii "/" := by simp [ascii_echo, ascii_root]
  have h2 : ascii "/echo/" ++ s ≠ ascii "/user-agent" := by simp [ascii_echo, ascii_user_agent]
  unfold handleGetRequest
  simp only [h1, h2, if_false, HasPrefix_append, TrimPrefix_append, if_true]

/-- What `handleConnection` does with a request that was read. -/
theorem handleConnection_of_request {env : Env} {fs : FileStore} {rd rd1 : Reader}
    {req : Request} (h : readRequest rd = (some req, rd1)) :
    handleConnection env fs rd =
      if req.method = ascii "GET" then handleGetRequest env fs rd1 req.path req.headers
      else if req.method = ascii "POST" then handlePostRequest env fs rd1 req.path req.headers
      else reply (ascii "HTTP/1.1 405 Method Not Allowed\r\n\r\n") fs rd1 := by
  unfold handleConnection
  rw [h]

theorem rejects_of_none {env : Env} {fs : FileStore} {rd : Reader}
    (h : (readRequest rd).1 = none) : Rejects env fs rd := by
  refine ⟨h, ?_⟩
  unfold handleConnection
  cases hr : readRequest rd with
  | mk o rd1 =>
    rw [hr] at h
    simp only at h
    subst h
    simp [reply]

/-- C4: when the stream ends before a newline-terminated request line, or the request line
has fewer than two white-space separated tokens, or no header terminator line comes before the
stream ends, `handleConnection` writes exactly the 400 status line, hands no request to a
handler and leaves the file store unchanged; and when the request line has at least two
tokens (and the terminator comes), the request handed on has the first token as method and
the second as path. -/
theorem malformed_request_rejected (env : Env) (fs : FileStore) (rd : Reader) :
    (cutLine 10 rd.all = none → Rejects env fs rd) ∧
    (∀ line rest, cutLine 10 rd.all = some (line, rest) → (Fields line).length < 2 →
      Rejects env fs rd) ∧
    (∀ line rest, cutLine 10 rd.all = some (line, rest) → (linesOf rest).any isBlank = false →
      Rejects env fs rd) ∧
    (∀ line rest method path more, cutLine 10 rd.all = some (line, rest) →
      Fields line = method :: path :: more → (linesOf rest).any isBlank = true →
      ∃ req rd1, readRequest rd = (some req, rd1) ∧ req.method = method ∧ req.path = path) := by
  refine ⟨fun h => rejects_of_none (readRequest_none h), ?_, ?_, ?_⟩
  · intro line rest h hlen
    apply rejects_of_none
    rw [readRequest_some h]
    split
    · rename_i hf
      rw [hf] at hlen
      simp only [List.length_cons] at hlen
      omega
    · rfl
  · intro line rest h hb
    apply rejects_of_none
    rw [readRequest_some h]
    split
    · simp [hb]
    · rfl
  · intro line rest method path more h hf hb
    have := readRequest_some h
    rw [hf] at this
    simp only [hb, if_true] at this
    cases hr : readRequest rd with
    | mk o rd1 =>
      rw [hr] at this
      simp only at this
      subst this
      exact ⟨_, rd1, rfl, rfl, rfl⟩

theorem malformed_request_rejected_witness :
    Rejects (envOf (ascii "/tmp/") some) emptyStore ⟨[], [ascii "GET\r\nHost: x\r\n\r\n"]⟩ ∧
    Rejects (envOf (ascii "/tmp/") some) emptyStore ⟨[], [ascii "GET / HTTP/1.1\r\nHost: x\r\n"]⟩ :=
  ⟨(malformed_request_rejected _ _ _).2.1 (ascii "GET\r\n") (ascii "Host: x\r\n\r\n")
      (by decide) (by decide),
   (malformed_request_rejected _ _ _).2.2.1 (ascii "GET / HTTP/1.1\r\n") (ascii "Host: x\r\n")
      (by decide) (by decide)⟩

/-- C6: a GET of `/echo/<s>` whose `Accept-Encoding` value has, among its comma-separated
pieces, one equal to `gzip` once trimmed, is answered 200 with `Content-Type: text/plain`,
`Content-Encoding: gzip`, a `Content-Length` equal to the length of the compressed body, and a
body that decompresses to `s` (the compressor being any total one with an inverse). -/
theorem echo_gzip_response (env : Env) (fs : FileStore) (rd rd1 : Reader) (req : Request)
    (s val : Bytes) (gunzip : Bytes → Option Bytes)
    (hreq : readRequest rd = (some req, rd1)) (hm : req.method = ascii "GET")
    (hp : req.path = ascii "/echo/" ++ s)
    (hae : mapGet req.headers (ascii "Accept-Encoding") = some val)
    (htok : ∃ t ∈ Split val, TrimSpace t = ascii "gzip")
    (hgz : ∀ x, ∃ c, env.gzip x = some c ∧ gunzip c = some x) :
    ∃ body, (handleConnection env fs rd).out =
        ascii "HTTP/1.1 200 OK\r\nContent-Type: text/plain\r\nContent-Encoding: gzip\r\nContent-Length: "
          ++ itoa body.length ++ ascii "\r\n\r\n" ++ body ∧
      gunzip body = some s := by
  obtain ⟨c, hc, hinv⟩ := hgz s
  refine ⟨c, ?_, hinv⟩
  rw [handleConnection_of_request hreq, if_pos hm, hp, handleGetRequest_echo, hae]
  simp only [(isGzip_iff _).mpr htok, if_true, hc, reply]

theorem echo_gzip_response_witness :
    ∃ body, (handleConnection (envOf (ascii "/tmp/") some) emptyStore
        ⟨[], [ascii "GET /echo/abc HTTP/1.1\r\nAccept-Encoding: br , gzip\r\n\r\n"]⟩).out =
        ascii "HTTP/1.1 200 OK\r\nContent-Type: text/plain\r\nContent-Encoding: gzip\r\nContent-Length: "
          ++ itoa body.length ++ ascii "\r\n\r\n" ++ body ∧
      some body = some (ascii "abc") :=
  echo_gzip_response (envOf (ascii "/tmp/") some) emptyStore
    ⟨[], [ascii "GET /echo/abc HTTP/1.1\r\nAccept-Encoding: br , gzip\r\n\r\n"]⟩ ⟨[], []⟩
    ⟨ascii "GET", ascii "/echo/abc", [(ascii "Accept-Encoding", ascii "br , gzip")]⟩
    (ascii "abc") (ascii "br , gzip") some (by decide) (by decide) (by decide) (by decide)
    (by decide) (fun x => ⟨x, rfl, rfl⟩)

/-- C7: a GET of `/echo/<s>` whose header map has the key `Accept-Encoding` with no piece
equal to `gzip` once trimmed is answered by exactly the status line and the `Content-Type`
header: no `Content-Length`, no body, whatever `s` is. -/
theorem echo_without_gzip_token (env : Env) (fs : FileStore) (rd rd1 : Reader) (req : Request)
    (s val : Bytes)
    (hreq : readRequest rd = (some req, rd1)) (hm : req.method = ascii "GET")
    (hp : req.path = ascii "/echo/" ++ s)
    (hae : mapGet req.headers (ascii "Accept-Encoding") = some val)
    (htok : ∀ t ∈ Split val, TrimSpace t ≠ ascii "gzip") :
    (handleConnection env fs rd).out = ascii "HTTP/1.1 200 OK\r\nContent-Type: text/plain\r\n\r\n" := by
  have hg : isGzip (Split val) = false := by
    cases h : isGzip (Split val) with
    | false => rfl
    | true =>
      obtain ⟨t, ht, e⟩ := (isGzip_iff _).mp h
      exact absurd e (htok t ht)
  rw [handleConnection_of_request hreq, if_pos hm, hp, handleGetRequest_echo, hae]
  simp [hg, reply]

theorem echo_without_gzip_token_witness :
    (handleConnection (envOf (ascii "/tmp/") some) emptyStore
        ⟨[], [ascii "GET /echo/abc HTTP/1.1\r\nAccept-Encoding: GZIP, gzip;q=1.0\r\n\r\n"]⟩).out =
      ascii "HTTP/1.1 200 OK\r\nContent-Type: text/plain\r\n\r\n" :=
  echo_without_gzip_token (envOf (ascii "/tmp/") some) emptyStore
    ⟨[], [ascii "GET /echo/abc HTTP/1.1\r\nAccept-Encoding: GZIP, gzip;q=1.0\r\n\r\n"]⟩ ⟨[], []⟩
    ⟨ascii "GET", ascii "/echo/abc", [(ascii "Accept-Encoding", ascii "GZIP, gzip;q=1.0")]⟩
    (ascii "abc") (ascii "GZIP, gzip;q=1.0") (by decide) (by decide) (by decide) (by decide)
    (by decide)

/-- C8: a GET of `/echo/<s>` with no `Accept-Encoding` key in the header map is answered by
exactly the 200 status line, `Content-Type: text/plain`, a `Content-Length` of the byte length
of `s`, the blank line, and `s` itself, `s` being the literal rest of the path after
`/echo/`. -/
theorem echo_plain_response (env : Env) (fs : FileStore) (rd rd1 : Reader) (req : Request)
    (s : Bytes)
    (hreq : readRequest rd = (some req, rd1)) (hm : req.method = ascii "GET")
    (hp : req.path = ascii "/echo/" ++ s)
    (hae : mapGet req.headers (ascii "Accept-Encoding") = none) :
    (handleConnection env fs rd).out =
      ascii "HTTP/1.1 200 OK\r\nContent-Type: text/plain\r\nContent-Length: "
        ++ itoa s.length ++ ascii "\r\n\r\n" ++ s := by
  rw [handleConnection_of_request hreq, if_pos hm, hp, handleGetRequest_echo, hae]
  simp [reply]

theorem echo_plain_response_witness :
    (handleConnection (envOf (ascii "/tmp/") some) emptyStore
        ⟨[], [ascii "GET /echo/a/b%20c HTTP/1.1\r\naccept-encoding: gzip\r\n\r\n"]⟩).out =
      ascii "HTTP/1.1 200 OK\r\nContent-Type: text/plain\r\nContent-Length: "
        ++ itoa (ascii "a/b%20c").length ++ ascii "\r\n\r\n" ++ ascii "a/b%20c" :=
  echo_plain_response (envOf (ascii "/tmp/") some) emptyStore
    ⟨[], [ascii "GET /echo/a/b%20c HTTP/1.1\r\naccept-encoding: gzip\r\n\r\n"]⟩ ⟨[], []⟩
    ⟨ascii "GET", ascii "/echo/a/b%20c", [(ascii "accept-encoding", ascii "gzip")]⟩
    (ascii "a/b%20c") (by decide) (by decide) (by decide) (by decide)

/-- C10: a POST whose path starts with `/files`, in a process started with its directory
argument: without the key `Content-Length` exactly the 411 status line is written; with a
value that `Atoi` does not accept exactly the 400 status line is written; in both cases the
file store is unchanged and the reader is where the header terminator left it (no body byte
consumed). -/
theorem upload_length_required (env : Env) (fs : FileStore) (rd rd1 : Reader) (req : Request)
    (dir : Bytes)
    (hreq : readRequest rd = (some req, rd1)) (hm : req.method = ascii "POST")
    (hp : HasPrefix req.path (ascii "/files") = true) (hdir : env.args[2]? = some dir) :
    (mapGet req.headers (ascii "Content-Length") = none →
      (handleConnection env fs rd).out = ascii "HTTP/1.1 411 Length Required\r\n\r\n" ∧
      (handleConnection env fs rd).fs = fs ∧ (handleConnection env fs rd).rd = rd1) ∧
    (∀ v, mapGet req.headers (ascii "Content-Length") = some v → Atoi v = none →
      (handleConnection env fs rd).out = ascii "HTTP/1.1 400 Bad Request\r\n\r\n" ∧
      (handleConnection env fs rd).fs = fs ∧ (handleConnection env fs rd).rd = rd1) := by
  have hne : req.method ≠ ascii "GET" := by rw [hm]; exact ascii_get_ne_post
  rw [handleConnection_of_request hreq, if_neg hne, if_pos hm]
  unfold handlePostRequest
  simp only [hp, if_true, hdir]
  constructor
  · intro h
    simp [h, reply]
  · intro v h hv
    simp [h, hv, reply]

theorem upload_length_required_witness :
    ((handleConnection (envOf (ascii "/tmp/") some) emptyStore
        ⟨[], [ascii "POST /files/bar.txt HTTP/1.1\r\nContent-Length: 5x\r\n\r\nhello"]⟩).out =
      ascii "HTTP/1.1 400 Bad Request\r\n\r\n" ∧
     (handleConnection (envOf (ascii "/tmp/") some) emptyStore
        ⟨[], [ascii "POST /files/bar.txt HTTP/1.1\r\nContent-Length: 5x\r\n\r\nhello"]⟩).fs =
      emptyStore ∧
     (handleConnection (envOf (ascii "/tmp/") some) emptyStore
        ⟨[], [ascii "POST /files/bar.txt HTTP/1.1\r\nContent-Length: 5x\r\n\r\nhello"]⟩).rd =
      ⟨ascii "hello", []⟩) :=
  (upload_length_required (envOf (ascii "/tmp/") some) emptyStore
    ⟨[], [ascii "POST /files/bar.txt HTTP/1.1\r\nContent-Length: 5x\r\n\r\nhello"]⟩
    ⟨ascii "hello", []⟩
    ⟨ascii "POST", ascii "/files/bar.txt", [(ascii "Content-Length", ascii "5x")]⟩
    (ascii "/tmp/") (by decide) (by decide) (by decide) (by decide)).2 (ascii "5x")
    (by decide) (by decide)

/-! ## Every response is framed, and its `Content-Length` counts its body -/

theorem wf_400 : WellFramed (ascii "HTTP/1.1 400 Bad Request\r\n\r\n") :=
  Or.inr ⟨ascii "HTTP/1.1 400 Bad Request", [], [], by decide, by simp [headerSets], by decide⟩

theorem wf_404 : WellFramed (ascii "HTTP/1.1 404 Not Found\r\n\r\n") :=
  Or.inr ⟨ascii "HTTP/1.1 404 Not Found", [], [], by decide, by simp [headerSets], by decide⟩

theorem wf_405 : WellFramed (ascii "HTTP/1.1 405 Method Not Allowed\r\n\r\n") :=
  Or.inr ⟨ascii "HTTP/1.1 405 Method Not Allowed", [], [], by decide, by simp [headerSets],
    by decide⟩

theorem wf_411 : WellFramed (ascii "HTTP/1.1 411 Length Required\r\n\r\n") :=
  Or.inr ⟨ascii "HTTP/1.1 411 Length Required", [], [], by decide, by simp [headerSets],
    by decide⟩

theorem wf_500 : WellFramed (ascii "HTTP/1.1 500 Internal Server Error\r\n\r\n") :=
  Or.inr ⟨ascii "HTTP/1.1 500 Internal Server Error", [], [], by decide, by simp [headerSets],
    by decide⟩

theorem wf_hello : WellFramed (ascii "HTTP/1.1 200 OK\r\n\r\nHello, World!\n") :=
  Or.inr ⟨ascii "HTTP/1.1 200 OK", [], ascii "Hello, World!\n", by decide, by simp [headerSets],
    by decide⟩

theorem wf_not_found : WellFramed (ascii "HTTP/1.1 404 Not Found\r\n\r\nPath not found\n") :=
  Or.inr ⟨ascii "HTTP/1.1 404 Not Found", [], ascii "Path not found\n", by decide,
    by simp [headerSets], by decide⟩

theorem wf_plain_only : WellFramed (ascii "HTTP/1.1 200 OK\r\nContent-Type: text/plain\r\n\r\n") :=
  Or.inr ⟨ascii "HTTP/1.1 200 OK", [ascii "Content-Type: text/plain"], [], by decide,
    by simp [headerSets], by decide⟩

theorem lit_plain_len :
    ascii "HTTP/1.1 200 OK\r\nContent-Type: text/plain\r\nContent-Length: " =
      ascii "HTTP/1.1 200 OK" ++ crlf ++ (ascii "Content-Type: text/plain" ++ crlf ++
        ascii "Content-Length: ") := by decide

theorem lit_gzip_len :
    ascii "HTTP/1.1 200 OK\r\nContent-Type: text/plain\r\nContent-Encoding: gzip\r\nContent-Length: " =
      ascii "HTTP/1.1 200 OK" ++ crlf ++ (ascii "Content-Type: text/plain" ++ crlf ++
        (ascii "Content-Encoding: gzip" ++ crlf ++ ascii "Content-Length: ")) := by decide

theorem lit_octet_len :
    ascii "HTTP/1.1 200 OK\r\nContent-Type: application/octet-stream\r\nContent-Length: " =
      ascii "HTTP/1.1 200 OK" ++ crlf ++ (ascii "Content-Type: application/octet-stream" ++ crlf ++
        ascii "Content-Length: ") := by decide

theorem lit_created_len :
    ascii "HTTP/1.1 201 Created\r\nContent-Type: text/plain\r\nContent-Length: " =
      ascii "HTTP/1.1 201 Created" ++ crlf ++ (ascii "Content-Type: text/plain" ++ crlf ++
        ascii "Content-Length: ") := by decide

theorem lit_crlf2 : ascii "\r\n\r\n" = crlf ++ crlf := by decide

theorem render_plain_len (n : Nat) (body : Bytes) :
    ascii "HTTP/1.1 200 OK\r\nContent-Type: text/plain\r\nContent-Length: " ++ itoa n
        ++ ascii "\r\n\r\n" ++ body =
      render [ascii "HTTP/1.1 200 OK", ascii "Content-Type: text/plain",
        ascii "Content-Length: " ++ itoa n] body := by
  rw [lit_plain_len, lit_crlf2]
  simp [render, List.append_assoc]

theorem render_gzip_len (n : Nat) (body : Bytes) :
    ascii "HTTP/1.1 200 OK\r\nContent-Type: text/plain\r\nContent-Encoding: gzip\r\nContent-Length: "
        ++ itoa n ++ ascii "\r\n\r\n" ++ body =
      render [ascii "HTTP/1.1 200 OK", ascii "Content-Type: text/plain",
        ascii "Content-Encoding: gzip", ascii "Content-Length: " ++ itoa n] body := by
  rw [lit_gzip_len, lit_crlf2]
  simp [render, List.append_assoc]

theorem render_octet_len (n : Nat) (body : Bytes) :
    ascii "HTTP/1.1 200 OK\r\nContent-Type: application/octet-stream\r\nContent-Length: "
        ++ itoa n ++ ascii "\r\n\r\n" ++ body =
      render [ascii "HTTP/1.1 200 OK", ascii "Content-Type: application/octet-stream",
        ascii "Content-Length: " ++ itoa n] body := by
  rw [lit_octet_len, lit_crlf2]
  simp [render, List.append_assoc]

theorem render_created_len (n : Nat) (body : Bytes) :
    ascii "HTTP/1.1 201 Created\r\nContent-Type: text/plain\r\nContent-Length: " ++ itoa n
        ++ ascii "\r\n\r\n" ++ body =
      render [ascii "HTTP/1.1 201 Created", ascii "Content-Type: text/plain",
        ascii "Content-Length: " ++ itoa n] body := by
  rw [lit_created_len, lit_crlf2]
  simp [render, List.append_assoc]

theorem wf_plain_len (body : Bytes) :
    WellFramed (ascii "HTTP/1.1 200 OK\r\nContent-Type: text/plain\r\nContent-Length: "
      ++ itoa body.length ++ ascii "\r\n\r\n" ++ body) :=
  Or.inr ⟨_, _, body, by decide, by simp [headerSets], render_plain_len _ _⟩

theorem wf_gzip_len (body : Bytes) :
    WellFramed (ascii "HTTP/1.1 200 OK\r\nContent-Type: text/plain\r\nContent-Encoding: gzip\r\nContent-Length: "
      ++ itoa body.length ++ ascii "\r\n\r\n" ++ body) :=
  Or.inr ⟨_, _, body, by decide, by simp [headerSets], render_gzip_len _ _⟩

theorem wf_octet_len (body : Bytes) :
    WellFramed (ascii "HTTP/1.1 200 OK\r\nContent-Type: application/octet-stream\r\nContent-Length: "
      ++ itoa body.length ++ ascii "\r\n\r\n" ++ body) :=
  Or.inr ⟨_, _, body, by decide, by simp [headerSets], render_octet_len _ _⟩

theorem wf_created_len (body : Bytes) :
    WellFramed (ascii "HTTP/1.1 201 Created\r\nContent-Type: text/plain\r\nContent-Length: "
      ++ itoa body.length ++ ascii "\r\n\r\n" ++ body) :=
  Or.inr ⟨_, _, body, by decide, by simp [headerSets], render_created_len _ _⟩

theorem fillSlice_length {n : Nat} {data : Bytes} (h : data.length ≤ n) :
    (fillSlice n data).length = n := by
  simp [fillSlice]; omega

theorem fileRead_length {c got : Bytes} {limit : Option Nat} {n : Nat}
    (h : fileRead c limit n = some got) : got.length ≤ n := by
  unfold fileRead at h
  split at h
  · simp at h; subst h; simp
  · split at h
    · simp at h
    · simp at h; subst h
      simp only [List.length_take]
      omega

/-- Whatever `handleGetRequest` writes is framed. -/
theorem handleGetRequest_framed (env : Env) (fs : FileStore) (rd : Reader) (path : Bytes)
    (headers : Headers) : WellFramed (handleGetRequest env fs rd path headers).out := by
  unfold handleGetRequest
  dsimp only
  split
  · exact wf_hello
  split
  · exact wf_plain_len _
  split
  · split
    · split
      · split
        · exact wf_500
        · exact wf_gzip_len _
      · exact wf_plain_only
    · exact wf_plain_len _
  split
  · split
    · exact Or.inl rfl
    · split
      · exact wf_404
      · split
        · exact wf_404
        · rename_i content _ _ got hgot
          have := fillSlice_length (fileRead_length hgot)
          have h2 := wf_octet_len (fillSlice content.length got)
          rw [this] at h2
          exact h2
  · exact wf_not_found

/-- Whatever `handlePostRequest` writes is framed. -/
theorem handlePostRequest_framed (env : Env) (fs : FileStore) (rd : Reader) (path : Bytes)
    (headers : Headers) : WellFramed (handlePostRequest env fs rd path headers).out := by
  unfold handlePostRequest
  dsimp only
  split
  · split
    · exact Or.inl rfl
    · split
      · exact wf_411
      · split
        · exact wf_400
        · split
          · exact Or.inl rfl
          · split
            · exact wf_400
            · split
              · exact wf_500
              · split
                · split
                  · exact wf_500
                  · exact wf_created_len _
                · exact wf_created_len _
  · exact wf_not_found

/-- Whatever `handleConnection` writes is framed. -/
theorem handleConnection_framed (env : Env) (fs : FileStore) (rd : Reader) :
    WellFramed (handleConnection env fs rd).out := by
  unfold handleConnection
  split
  · exact wf_400
  · split
    · exact handleGetRequest_framed _ _ _ _ _
    · split
      · exact handlePostRequest_framed _ _ _ _ _
      · exact wf_405

theorem parseGo_cons {a : Nat} (ha : a ≠ 13) (cur : Bytes) (lines : List Bytes) (s : Bytes) :
    parseGo cur lines (a :: s) = parseGo (cur ++ [a]) lines s := by
  cases s with
  | nil => simp [parseGo]
  | cons b r => rw [parseGo]; simp [ha]

theorem parseGo_line (l : Bytes) :
    ∀ (cur : Bytes) (lines : List Bytes) (rest : Bytes), 13 ∉ l →
      parseGo cur lines (l ++ 13 :: 10 :: rest) =
        if cur ++ l = [] then some (lines, rest) else parseGo [] (lines ++ [cur ++ l]) rest := by
  induction l with
  | nil =>
    intro cur lines rest _
    rw [List.nil_append, parseGo]
    simp
  | cons a t ih =>
    intro cur lines rest h
    have ha : a ≠ 13 := fun e => h (by simp [e])
    have ht : 13 ∉ t := fun e => h (by simp [e])
    rw [List.cons_append, parseGo_cons ha, ih _ _ _ ht]
    simp

theorem parseGo_render (ls : List Bytes) :
    ∀ (acc : List Bytes) (body : Bytes), (∀ l ∈ ls, 13 ∉ l ∧ l ≠ []) →
      parseGo [] acc (render ls body) = some (acc ++ ls, body) := by
  induction ls with
  | nil =>
    intro acc body _
    simp [render, crlf, parseGo]
  | cons l t ih =>
    intro acc body h
    have hl := h l (by simp)
    have e : render (l :: t) body = l ++ 13 :: 10 :: render t body := by
      simp [render, crlf]
    rw [e, parseGo_line l _ _ _ hl.1]
    simp only [List.nil_append, hl.2, if_false]
    rw [ih _ _ (fun x hx => h x (by simp [hx]))]
    simp

theorem itoaGo_digits (fuel : Nat) :
    ∀ (n : Nat) (acc : Bytes), (∀ b ∈ acc, 48 ≤ b ∧ b ≤ 57) →
      ∀ b ∈ itoaGo fuel n acc, 48 ≤ b ∧ b ≤ 57 := by
  induction fuel with
  | zero => intro n acc h; simpa [itoaGo] using h
  | succ f ih =>
    intro n acc h
    rw [itoaGo]
    split
    · intro b hb
      simp only [List.mem_cons] at hb
      rcases hb with rfl | hb
      · omega
      · exact h b hb
    · apply ih
      intro b hb
      simp only [List.mem_cons] at hb
      rcases hb with rfl | hb
      · omega
      · exact h b hb

theorem itoa_digits (n : Nat) : ∀ b ∈ itoa n, 48 ≤ b ∧ b ≤ 57 :=
  itoaGo_digits _ _ _ (by simp)

theorem statusLines_clean : ∀ l ∈ statusLines, 13 ∉ l ∧ l ≠ [] ∧ l.head? = some 72 := by decide

theorem content_length_line_clean (n : Nat) :
    13 ∉ ascii "Content-Length: " ++ itoa n ∧ ascii "Content-Length: " ++ itoa n ≠ [] := by
  constructor
  · intro h
    rcases List.mem_append.mp h with h | h
    · revert h; decide
    · have := itoa_digits n 13 h
      omega
  · intro h
    have := congrArg List.length h
    simp [ascii] at this

theorem headerSets_clean {body : Bytes} {hs : List Bytes} (h : hs ∈ headerSets body) :
    ∀ l ∈ hs, 13 ∉ l ∧ l ≠ [] := by
  have c1 : 13 ∉ ascii "Content-Type: text/plain" ∧ ascii "Content-Type: text/plain" ≠ [] := by
    decide
  have c2 : 13 ∉ ascii "Content-Encoding: gzip" ∧ ascii "Content-Encoding: gzip" ≠ [] := by
    decide
  have c3 : 13 ∉ ascii "Content-Type: application/octet-stream" ∧
      ascii "Content-Type: application/octet-stream" ≠ [] := by decide
  have c4 := content_length_line_clean body.length
  simp only [headerSets, List.mem_cons, List.mem_singleton, List.not_mem_nil, or_false] at h
  rcases h with rfl | rfl | rfl | rfl | rfl <;>
    simp only [List.forall_mem_cons, List.not_mem_nil, IsEmpty.forall_iff, implies_true,
      and_true] <;>
    first
      | exact c1
      | exact ⟨c1, c4⟩
      | exact ⟨c1, c2, c4⟩
      | exact ⟨c3, c4⟩

/-- A framed response parses back into its lines and its body. -/
theorem parseResponse_render {st : Bytes} {hs : List Bytes} {body : Bytes}
    (hst : st ∈ statusLines) (hhs : hs ∈ headerSets body) :
    parseResponse (render (st :: hs) body) = some (st :: hs, body) := by
  unfold parseResponse
  rw [parseGo_render]
  · simp
  · intro l hl
    rcases List.mem_cons.mp hl with rfl | hl
    · exact ⟨(statusLines_clean _ hst).1, (statusLines_clean _ hst).2.1⟩
    · exact headerSets_clean hhs l hl

theorem content_length_take (v : Bytes) :
    (ascii "Content-Length: " ++ v).take 9 = ascii "Content-L" := by
  rw [List.take_append_of_le_length (by decide)]
  decide

theorem content_length_ne {v l : Bytes} (h : l.take 9 ≠ ascii "Content-L") :
    ascii "Content-Length: " ++ v ≠ l := by
  intro e
  apply h
  rw [← e, content_length_take]

/-- In a header block of the program, a `Content-Length` line carries the length of the
body. -/
theorem headerSets_content_length {body v : Bytes} {hs : List Bytes}
    (h : hs ∈ headerSets body) (hv : ascii "Content-Length: " ++ v ∈ hs) :
    v = itoa body.length := by
  have n1 : ascii "Content-Length: " ++ v ≠ ascii "Content-Type: text/plain" :=
    content_length_ne (by decide)
  have n2 : ascii "Content-Length: " ++ v ≠ ascii "Content-Encoding: gzip" :=
    content_length_ne (by decide)
  have n3 : ascii "Content-Length: " ++ v ≠ ascii "Content-Type: application/octet-stream" :=
    content_length_ne (by decide)
  simp only [headerSets, List.mem_cons, List.mem_singleton, List.not_mem_nil, or_false] at h
  rcases h with rfl | rfl | rfl | rfl | rfl <;>
    simp only [List.mem_cons, List.mem_singleton, List.not_mem_nil, or_false, n1, n2, n3,
      false_or, List.append_cancel_left_eq] at hv
  · exact hv
  · exact hv
  · exact hv

/-- C1: whenever the response written by `handleConnection`, framed as its reader frames it
(lines up to the first empty line, then the body), has a header line `Content-Length: v`, then
`v` is the decimal count of the body bytes written after the empty line; and on the gzip echo
path the header block ends with the `Content-Length` of the compressed body, which is the body
written. -/
theorem content_length_counts_body (env : Env) (fs : FileStore) (rd : Reader) :
    (∀ lines body v, parseResponse (handleConnection env fs rd).out = some (lines, body) →
      ascii "Content-Length: " ++ v ∈ lines → v = itoa body.length) ∧
    (∀ req rd1 s val c, readRequest rd = (some req, rd1) → req.method = ascii "GET" →
      req.path = ascii "/echo/" ++ s →
      mapGet req.headers (ascii "Accept-Encoding") = some val →
      (∃ t ∈ Split val, TrimSpace t = ascii "gzip") → env.gzip s = some c →
      parseResponse (handleConnection env fs rd).out =
        some ([ascii "HTTP/1.1 200 OK", ascii "Content-Type: text/plain",
          ascii "Content-Encoding: gzip", ascii "Content-Length: " ++ itoa c.length], c)) := by
  constructor
  · intro lines body v hp hv
    rcases handleConnection_framed env fs rd with h0 | ⟨st, hs, body0, hst, hhs, hout⟩
    · rw [h0] at hp
      simp [parseResponse, parseGo] at hp
    · rw [hout, parseResponse_render hst hhs] at hp
      simp only [Option.some.injEq, Prod.mk.injEq] at hp
      obtain ⟨rfl, rfl⟩ := hp
      rcases List.mem_cons.mp hv with e | hv
      · have := (statusLines_clean _ hst).2.2
        rw [← e] at this
        revert this
        simp [ascii]
      · exact headerSets_content_length hhs hv
  · intro req rd1 s val c hreq hm hp hae htok hc
    rw [handleConnection_of_request hreq, if_pos hm, hp, handleGetRequest_echo, hae]
    simp only [(isGzip_iff _).mpr htok, if_true, hc, reply]
    rw [render_gzip_len]
    exact parseResponse_render (by decide) (by simp [headerSets])

theorem content_length_counts_body_witness :
    ascii "3" = itoa (ascii "abc").length ∧
    parseResponse (handleConnection (envOf (ascii "/tmp/") (fun x => some (31 :: 139 :: x))) emptyStore
        ⟨[], [ascii "GET /echo/abc HTTP/1.1\r\nAccept-Encoding: gzip\r\n\r\n"]⟩).out =
      some ([ascii "HTTP/1.1 200 OK", ascii "Content-Type: text/plain",
        ascii "Content-Encoding: gzip", ascii "Content-Length: " ++ itoa 5],
        [31, 139, 97, 98, 99]) :=
  ⟨(content_length_counts_body (envOf (ascii "/tmp/") some) emptyStore
      ⟨[], [ascii "GET /echo/abc HTTP/1.1\r\nHost: x\r\n\r\n"]⟩).1
      [ascii "HTTP/1.1 200 OK", ascii "Content-Type: text/plain", ascii "Content-Length: 3"]
      (ascii "abc") (ascii "3") (by decide) (by decide),
   (content_length_counts_body (envOf (ascii "/tmp/") (fun x => some (31 :: 139 :: x))) emptyStore
      ⟨[], [ascii "GET /echo/abc HTTP/1.1\r\nAccept-Encoding: gzip\r\n\r\n"]⟩).2
      ⟨ascii "GET", ascii "/echo/abc", [(ascii "Accept-Encoding", ascii "gzip")]⟩ ⟨[], []⟩
      (ascii "abc") (ascii "gzip") [31, 139, 97, 98, 99] (by decide) (by decide) (by decide)
      (by decide) (by decide) (by decide)⟩

/-! ## Where the program departs from its specification -/

/-- C5: on `GET /user-agent` with the header `User-Agent: 100%` the header map holds `100%`
under `User-Agent`, yet the body written is `100%!(NOVERB)` with `Content-Length: 13`, not the
value itself with `Content-Length: 4`: the value is used as a format string. -/
theorem user_agent_percent_garbled :
    (readRequest ⟨[], [ascii "GET /user-agent HTTP/1.1\r\nUser-Agent: 100%\r\n\r\n"]⟩).1 =
      some ⟨ascii "GET", ascii "/user-agent", [(ascii "User-Agent", ascii "100%")]⟩ ∧
    (handleConnection (envOf (ascii "/tmp/") some) emptyStore
        ⟨[], [ascii "GET /user-agent HTTP/1.1\r\nUser-Agent: 100%\r\n\r\n"]⟩).out =
      ascii "HTTP/1.1 200 OK\r\nContent-Type: text/plain\r\nContent-Length: 13\r\n\r\n100%!(NOVERB)" ∧
    (handleConnection (envOf (ascii "/tmp/") some) emptyStore
        ⟨[], [ascii "GET /user-agent HTTP/1.1\r\nUser-Agent: 100%\r\n\r\n"]⟩).out ≠
      ascii "HTTP/1.1 200 OK\r\nContent-Type: text/plain\r\nContent-Length: 4\r\n\r\n100%" := by
  decide

/-- C9: a POST of `/files/a` with `Content-Length: 2` whose body `hi` arrives in two segments,
`h` with the headers and `i` after: the stream holds the two body bytes, yet the file written
holds `h` followed by a zero byte, and the answer is 201 with that same body. -/
theorem upload_split_body_truncated :
    (readRequest ⟨[], [ascii "POST /files/a HTTP/1.1\r\nContent-Length: 2\r\n\r\nh", ascii "i"]⟩) =
      (some ⟨ascii "POST", ascii "/files/a", [(ascii "Content-Length", ascii "2")]⟩,
        ⟨ascii "h", [ascii "i"]⟩) ∧
    (handleConnection (envOf (ascii "/tmp/") some) emptyStore
        ⟨[], [ascii "POST /files/a HTTP/1.1\r\nContent-Length: 2\r\n\r\nh", ascii "i"]⟩).fs.files
        (ascii "/tmp/a") = some [104, 0] ∧
    (handleConnection (envOf (ascii "/tmp/") some) emptyStore
        ⟨[], [ascii "POST /files/a HTTP/1.1\r\nContent-Length: 2\r\n\r\nh", ascii "i"]⟩).fs.files
        (ascii "/tmp/a") ≠ some (ascii "hi") ∧
    (handleConnection (envOf (ascii "/tmp/") some) emptyStore
        ⟨[], [ascii "POST /files/a HTTP/1.1\r\nContent-Length: 2\r\n\r\nh", ascii "i"]⟩).out =
      ascii "HTTP/1.1 201 Created\r\nContent-Type: text/plain\r\nContent-Length: 2\r\n\r\n" ++ [104, 0] := by
  decide

/-- C2: with the base directory `/tmp` (no trailing slash) the upload of `hello` to
`/files/foo.txt` is answered 201 and writes the file `/tmp/foo.txt`, and the fetch of
`/files/foo.txt` against the resulting store is answered 404, because it opens `/tmpfoo.txt`;
with the base directory `/tmp/` and the body `hi` arriving in two segments, the fetch after
the upload returns `h` and a zero byte. -/
theorem upload_fetch_round_trip_fails :
    (handleConnection (envOf (ascii "/tmp") some) emptyStore
        ⟨[], [ascii "POST /files/foo.txt HTTP/1.1\r\nContent-Length: 5\r\n\r\nhello"]⟩).out =
      ascii "HTTP/1.1 201 Created\r\nContent-Type: text/plain\r\nContent-Length: 5\r\n\r\nhello" ∧
    (handleConnection (envOf (ascii "/tmp") some) emptyStore
        ⟨[], [ascii "POST /files/foo.txt HTTP/1.1\r\nContent-Length: 5\r\n\r\nhello"]⟩).fs.files
        (ascii "/tmp/foo.txt") = some (ascii "hello") ∧
    (handleConnection (envOf (ascii "/tmp") some)
        (handleConnection (envOf (ascii "/tmp") some) emptyStore
          ⟨[], [ascii "POST /files/foo.txt HTTP/1.1\r\nContent-Length: 5\r\n\r\nhello"]⟩).fs
        ⟨[], [ascii "GET /files/foo.txt HTTP/1.1\r\n\r\n"]⟩).out =
      ascii "HTTP/1.1 404 Not Found\r\n\r\n" ∧
    (handleConnection (envOf (ascii "/tmp/") some)
        (handleConnection (envOf (ascii "/tmp/") some) emptyStore
          ⟨[], [ascii "POST /files/a HTTP/1.1\r\nContent-Length: 2\r\n\r\nh", ascii "i"]⟩).fs
        ⟨[], [ascii "GET /files/a HTTP/1.1\r\n\r\n"]⟩).out =
      ascii "HTTP/1.1 200 OK\r\nContent-Type: application/octet-stream\r\nContent-Length: 2\r\n\r\n"
        ++ [104, 0] := by
  decide

/-- The round trip as the test harness runs it: with the base directory `/tmp/` (trailing
slash) and the request in one segment, `hello` uploaded to `/files/foo.txt` is fetched back
whole. -/
theorem round_trip_single_segment :
    (handleConnection (envOf (ascii "/tmp/") some)
        (handleConnection (envOf (ascii "/tmp/") some) emptyStore
          ⟨[], [ascii "POST /files/foo.txt HTTP/1.1\r\nContent-Length: 5\r\n\r\nhello"]⟩).fs
        ⟨[], [ascii "GET /files/foo.txt HTTP/1.1\r\n\r\n"]⟩).out =
      ascii "HTTP/1.1 200 OK\r\nContent-Type: application/octet-stream\r\nContent-Length: 5\r\n\r\nhello" := by
  decide

/-! ## Trimming -/

theorem dropRunes_nil (w : Bytes → Nat) (k : Nat) : dropRunes w k [] = [] := by
  cases k <;> rfl

theorem dropRunes_skip (w : Bytes → Nat) (k : Nat) :
    ∀ s : Bytes, dropRunes w k s = dropRunes w 0 (s.drop k) := by
  induction k with
  | zero => intro s; simp
  | succ k ih =>
    intro s
    cases s with
    | nil => simp [dropRunes_nil]
    | cons a r => rw [dropRunes, ih]; simp

theorem dropRunes_zero (w : Bytes → Nat) (s : Bytes) :
    dropRunes w 0 s = if w s = 0 then s else dropRunes w 0 (s.drop (w s)) := by
  cases s with
  | nil => simp [dropRunes_nil]
  | cons a r =>
    rw [dropRunes]
    split
    · rfl
    · rename_i h
      rw [dropRunes_skip]
      obtain ⟨k, hk⟩ : ∃ k, w (a :: r) = k + 1 := ⟨w (a :: r) - 1, by omega⟩
      rw [hk]
      simp

theorem dropRunes_suffix (w : Bytes → Nat) (s : Bytes) :
    ∀ k, dropRunes w k s <:+ s := by
  induction s with
  | nil => intro k; simp [dropRunes_nil]
  | cons a r ih =>
    intro k
    cases k with
    | succ k => rw [dropRunes]; exact (ih k).trans (List.suffix_cons a r)
    | zero =>
      rw [dropRunes]
      split
      · exact List.suffix_refl _
      · exact (ih _).trans (List.suffix_cons a r)

theorem dropRunes_stable (w : Bytes → Nat) (hw : w [] = 0) (s : Bytes) :
    ∀ k, w (dropRunes w k s) = 0 := by
  induction s with
  | nil => intro k; simp [dropRunes_nil, hw]
  | cons a r ih =>
    intro k
    cases k with
    | succ k => rw [dropRunes]; exact ih k
    | zero =>
      rw [dropRunes]
      split
      · assumption
      · exact ih _

theorem dropRunes_of_zero (w : Bytes → Nat) {s : Bytes} (h : w s = 0) : dropRunes w 0 s = s := by
  rw [dropRunes_zero, if_pos h]

theorem dropRunes_idem (w : Bytes → Nat) (hw : w [] = 0) (s : Bytes) :
    dropRunes w 0 (dropRunes w 0 s) = dropRunes w 0 s :=
  dropRunes_of_zero w (dropRunes_stable w hw s 0)

theorem dropRunes_append_inert {w : Bytes → Nat} {c : Nat} (hw : Inert w c) (t : Bytes) :
    ∀ (n : Nat) (s : Bytes), s.length ≤ n →
      dropRunes w 0 (s ++ c :: t) = dropRunes w 0 s ++ c :: t := by
  intro n
  induction n with
  | zero =>
    intro s hs
    have : s = [] := List.length_eq_zero.mp (by omega)
    subst this
    have h0 : w [] = 0 := by have := hw.bound []; simpa using this
    have := hw.stop [] t h0
    rw [dropRunes_of_zero w h0, dropRunes_of_zero w this]
  | succ n ih =>
    intro s hs
    by_cases h : w s = 0
    · rw [dropRunes_of_zero w h, dropRunes_of_zero w (hw.stop s t h)]
    · have hm := hw.mono s (c :: t) h
      have hb := hw.bound s
      rw [dropRunes_zero w (s ++ c :: t), hm, if_neg h, dropRunes_zero w s, if_neg h,
        List.drop_append_of_le_length hb]
      apply ih
      simp only [List.length_drop]
      omega

theorem spaceLen_inert : Inert spaceLen 58 where
  bound := by
    intro s
    rcases s with _ | ⟨a, _ | ⟨b, _ | ⟨c, r⟩⟩⟩ <;> simp only [spaceLen] <;>
      (repeat' split) <;> simp
  mono := by
    intro s t h
    rcases s with _ | ⟨a, _ | ⟨b, _ | ⟨c, r⟩⟩⟩
    · simp [spaceLen] at h
    · by_cases ha : asciiSpace a = true
      · rcases t with _ | ⟨x, t⟩ <;> simp [spaceLen, ha]
      · simp [spaceLen, ha] at h
    · by_cases ha : asciiSpace a = true
      · simp [spaceLen, ha]
      · by_cases hb : space2 a b = true
        · simp [spaceLen, ha, hb]
        · simp [spaceLen, ha, hb] at h
    · simp [spaceLen]
  stop := by
    intro s t h
    rcases s with _ | ⟨a, _ | ⟨b, _ | ⟨c, r⟩⟩⟩
    · simp [spaceLen, asciiSpace, space2, space3]
      rcases t with _ | ⟨x, _ | ⟨y, t⟩⟩ <;> simp [space2, space3]
    · by_cases ha : asciiSpace a = true
      · simp [spaceLen, ha] at h
      · rcases t with _ | ⟨x, t⟩ <;> simp [spaceLen, ha, space2, space3]
    · by_cases ha : asciiSpace a = true
      · simp [spaceLen, ha] at h
      · by_cases hb : space2 a b = true
        · simp [spaceLen, ha, hb] at h
        · simp [spaceLen, ha, hb, space3]
    · simpa [spaceLen] using h

theorem spaceLenRev_inert : Inert spaceLenRev 58 where
  bound := by
    intro s
    rcases s with _ | ⟨a, _ | ⟨b, _ | ⟨c, r⟩⟩⟩ <;> simp only [spaceLenRev] <;>
      (repeat' split) <;> simp
  mono := by
    intro s t h
    rcases s with _ | ⟨a, _ | ⟨b, _ | ⟨c, r⟩⟩⟩
    · simp [spaceLenRev] at h
    · by_cases ha : asciiSpace a = true
      · rcases t with _ | ⟨x, t⟩ <;> simp [spaceLenRev, ha]
      · simp [spaceLenRev, ha] at h
    · by_cases ha : asciiSpace a = true
      · simp [spaceLenRev, ha]
      · by_cases hb : space2 b a = true
        · simp [spaceLenRev, ha, hb]
        · simp [spaceLenRev, ha, hb] at h
    · simp [spaceLenRev]
  stop := by
    intro s t h
    rcases s with _ | ⟨a, _ | ⟨b, _ | ⟨c, r⟩⟩⟩
    · simp [spaceLenRev, asciiSpace, space2, space3]
      rcases t with _ | ⟨x, _ | ⟨y, t⟩⟩ <;> simp [space2, space3]
    · by_cases ha : asciiSpace a = true
      · simp [spaceLenRev, ha] at h
      · rcases t with _ | ⟨x, t⟩ <;> simp [spaceLenRev, ha, space2, space3]
    · by_cases ha : asciiSpace a = true
      · simp [spaceLenRev, ha] at h
      · by_cases hb : space2 b a = true
        · simp [spaceLenRev, ha, hb] at h
        · simp [spaceLenRev, ha, hb, space3]
    · simpa [spaceLenRev] using h

theorem cutByte_eq_none {d : Nat} {l : Bytes} : cutByte d l = none ↔ d ∉ l := by
  induction l with
  | nil => simp [cutByte]
  | cons a r ih =>
    rw [cutByte]
    by_cases h : a = d
    · simp [h]
    · have h2 : ¬ d = a := fun e => h e.symm
      simp only [h, if_false, List.mem_cons, h2, false_or]
      rw [← ih]
      cases cutByte d r <;> simp

theorem cutByte_append {d : Nat} {a : Bytes} (b : Bytes) (h : d ∉ a) :
    cutByte d (a ++ d :: b) = some (a, b) := by
  induction a with
  | nil => simp [cutByte]
  | cons x t ih =>
    have hx : ¬ x = d := fun e => h (by simp [e])
    have ht : d ∉ t := fun e => h (by simp [e])
    rw [List.cons_append, cutByte, if_neg hx, ih ht]

theorem cutByte_eq_some {d : Nat} {l a b : Bytes} (h : cutByte d l = some (a, b)) :
    l = a ++ d :: b ∧ d ∉ a := by
  induction l generalizing a b with
  | nil => simp [cutByte] at h
  | cons x t ih =>
    rw [cutByte] at h
    by_cases hx : x = d
    · simp only [hx, if_true, Option.some.injEq, Prod.mk.injEq] at h
      obtain ⟨rfl, rfl⟩ := h
      simp [hx]
    · simp only [hx, if_false] at h
      cases hc : cutByte d t with
      | none => simp [hc] at h
      | some p =>
        obtain ⟨p1, p2⟩ := p
        simp only [hc, Option.some.injEq, Prod.mk.injEq] at h
        obtain ⟨rfl, rfl⟩ := h
        obtain ⟨e, hn⟩ := ih hc
        refine ⟨by rw [e]; simp, ?_⟩
        intro hm
        rcases List.mem_cons.mp hm with e2 | e2
        · exact hx e2.symm
        · exact hn e2

theorem TrimLeft_suffix (s : Bytes) : TrimLeft s <:+ s := dropRunes_suffix _ _ _

theorem TrimRight_initial (s : Bytes) : TrimRight s <+: s := by
  unfold TrimRight
  have := dropRunes_suffix spaceLenRev s.reverse 0
  rw [← List.reverse_prefix] at this
  simpa using this

theorem TrimLeft_colon (l r : Bytes) : TrimLeft (l ++ 58 :: r) = TrimLeft l ++ 58 :: r :=
  dropRunes_append_inert spaceLen_inert r l.length l (Nat.le_refl _)

theorem TrimRight_colon (l r : Bytes) : TrimRight (l ++ 58 :: r) = l ++ 58 :: TrimRight r := by
  unfold TrimRight
  rw [List.reverse_append, List.reverse_cons, List.append_assoc, List.singleton_append,
    dropRunes_append_inert spaceLenRev_inert l.reverse r.reverse.length r.reverse (Nat.le_refl _)]
  simp

theorem TrimSpace_colon (l r : Bytes) :
    TrimSpace (l ++ 58 :: r) = TrimLeft l ++ 58 :: TrimRight r := by
  unfold TrimSpace
  rw [TrimLeft_colon, TrimRight_colon]

theorem TrimLeft_idem (s : Bytes) : TrimLeft (TrimLeft s) = TrimLeft s :=
  dropRunes_idem spaceLen rfl s

theorem TrimRight_idem (s : Bytes) : TrimRight (TrimRight s) = TrimRight s := by
  unfold TrimRight
  rw [List.reverse_reverse, dropRunes_idem spaceLenRev rfl]

theorem closes_of_spaceLen {s : Bytes} (h : spaceLen s ≠ 0) :
    Closes (s.take (spaceLen s)).reverse := by
  rcases s with _ | ⟨a, r⟩
  · simp [spaceLen] at h
  by_cases ha : asciiSpace a = true
  · have e : spaceLen (a :: r) = 1 := by simp [spaceLen, ha]
    rw [e]
    refine ⟨by simp [spaceLenRev, ha], by simp, ?_⟩
    intro s hs h0
    rcases s with _ | ⟨x, _ | ⟨y, _ | ⟨z, t⟩⟩⟩
    · exact absurd rfl hs
    · simp [spaceLenRev, asciiSpace, space2, space3] at *
      first | omega | (split_ifs at * <;> omega)
    · simp [spaceLenRev, asciiSpace, space2, space3] at *
      first | omega | (split_ifs at * <;> omega)
    · simpa [spaceLenRev] using h0
  rcases r with _ | ⟨b, r⟩
  · simp [spaceLen, ha] at h
  by_cases hb : space2 a b = true
  · have e : spaceLen (a :: b :: r) = 2 := by simp [spaceLen, ha, hb]
    rw [e]
    refine ⟨?_, by simp, ?_⟩
    · simp [spaceLenRev, asciiSpace, space2, space3] at *
      first | omega | (split_ifs at * <;> omega)
    · intro s hs h0
      rcases s with _ | ⟨x, _ | ⟨y, _ | ⟨z, t⟩⟩⟩
      · exact absurd rfl hs
      · simp [spaceLenRev, asciiSpace, space2, space3] at *
        first | omega | (split_ifs at * <;> omega)
      · simp [spaceLenRev, asciiSpace, space2, space3] at *
        first | omega | (split_ifs at * <;> omega)
      · simpa [spaceLenRev] using h0
  rcases r with _ | ⟨c, r⟩
  · simp [spaceLen, ha, hb] at h
  by_cases hc : space3 a b c = true
  · have e : spaceLen (a :: b :: c :: r) = 3 := by simp [spaceLen, ha, hb, hc]
    rw [e]
    refine ⟨?_, by simp, ?_⟩
    · simp [spaceLenRev, asciiSpace, space2, space3] at *
      first | omega | (split_ifs at * <;> omega)
    · intro s hs h0
      rcases s with _ | ⟨x, _ | ⟨y, _ | ⟨z, t⟩⟩⟩
      · exact absurd rfl hs
      · simp [spaceLenRev, asciiSpace, space2, space3] at *
        first | omega | (split_ifs at * <;> omega)
      · simp [spaceLenRev, asciiSpace, space2, space3] at *
        first | omega | (split_ifs at * <;> omega)
      · simpa [spaceLenRev] using h0
  · simp [spaceLen, ha, hb, hc] at h

theorem dropRunes_append_closes {v : Bytes} (hv : Closes v) :
    ∀ (n : Nat) (s : Bytes), s.length ≤ n →
      dropRunes spaceLenRev 0 (s ++ v) =
        if dropRunes spaceLenRev 0 s = [] then [] else dropRunes spaceLenRev 0 s ++ v := by
  intro n
  induction n with
  | zero =>
    intro s hs
    have : s = [] := List.length_eq_zero.mp (by omega)
    subst this
    have hne : spaceLenRev v ≠ 0 := by
      rw [hv.whole]
      exact fun e => hv.nonempty (List.length_eq_zero.mp e)
    rw [List.nil_append, dropRunes_zero spaceLenRev v, if_neg hne, hv.whole]
    simp [dropRunes_nil]
  | succ n ih =>
    intro s hs
    by_cases hnil : s = []
    · subst hnil
      exact ih [] (by simp)
    by_cases h : spaceLenRev s = 0
    · rw [dropRunes_of_zero _ h, dropRunes_of_zero _ (hv.apart s hnil h), if_neg hnil]
    · have hm := spaceLenRev_inert.mono s v h
      have hb := spaceLenRev_inert.bound s
      rw [dropRunes_zero spaceLenRev (s ++ v), hm, if_neg h, dropRunes_zero spaceLenRev s,
        if_neg h, List.drop_append_of_le_length hb]
      apply ih
      simp only [List.length_drop]
      omega

theorem TrimRight_rune {s : Bytes} (h : spaceLen s ≠ 0) :
    TrimRight s =
      if TrimRight (s.drop (spaceLen s)) = [] then []
      else s.take (spaceLen s) ++ TrimRight (s.drop (spaceLen s)) := by
  have hc := closes_of_spaceLen h
  have e : s.reverse = (s.drop (spaceLen s)).reverse ++ (s.take (spaceLen s)).reverse := by
    rw [← List.reverse_append, List.take_append_drop]
  unfold TrimRight
  rw [e, dropRunes_append_closes hc _ _ (Nat.le_refl _)]
  by_cases hd : dropRunes spaceLenRev 0 (s.drop (spaceLen s)).reverse = []
  · simp [hd]
  · simp [hd]

theorem spaceLen_take {s : Bytes} (h : spaceLen s ≠ 0) :
    spaceLen (s.take (spaceLen s)) = spaceLen s := by
  rcases s with _ | ⟨a, r⟩
  · simp [spaceLen] at h
  by_cases ha : asciiSpace a = true
  · simp [spaceLen, ha]
  rcases r with _ | ⟨b, r⟩
  · simp [spaceLen, ha] at h
  by_cases hb : space2 a b = true
  · simp [spaceLen, ha, hb]
  rcases r with _ | ⟨c, r⟩
  · simp [spaceLen, ha, hb] at h
  by_cases hc : space3 a b c = true
  · simp [spaceLen, ha, hb, hc]
  · simp [spaceLen, ha, hb, hc] at h

/-- Trimming on the left and trimming on the right do not disturb one another. -/
theorem TrimLeft_TrimRight (n : Nat) :
    ∀ s : Bytes, s.length ≤ n → TrimLeft (TrimRight s) = TrimRight (TrimLeft s) := by
  induction n with
  | zero =>
    intro s hs
    have : s = [] := List.length_eq_zero.mp (by omega)
    subst this
    rfl
  | succ n ih =>
    intro s hs
    by_cases h : spaceLen s = 0
    · have e1 : TrimLeft s = s := dropRunes_of_zero _ h
      rw [e1]
      apply dropRunes_of_zero
      by_contra hne
      obtain ⟨x, hx⟩ := TrimRight_initial s
      have := spaceLen_inert.mono (TrimRight s) x hne
      rw [hx] at this
      exact hne (this ▸ h)
    · have hb := spaceLen_inert.bound s
      have hpos : 0 < spaceLen s := Nat.pos_of_ne_zero h
      have e1 : TrimLeft s = TrimLeft (s.drop (spaceLen s)) := by
        unfold TrimLeft
        rw [dropRunes_zero spaceLen s, if_neg h]
      have hlen : (s.drop (spaceLen s)).length ≤ n := by
        simp only [List.length_drop]
        omega
      rw [e1, ← ih _ hlen, TrimRight_rune h]
      by_cases hd : TrimRight (s.drop (spaceLen s)) = []
      · simp [hd]
      · rw [if_neg hd]
        have hk : spaceLen (s.take (spaceLen s) ++ TrimRight (s.drop (spaceLen s))) = spaceLen s := by
          rw [spaceLen_inert.mono _ _ (by rw [spaceLen_take h]; exact h), spaceLen_take h]
        have hl : (s.take (spaceLen s)).length = spaceLen s := by
          rw [List.length_take]; omega
        unfold TrimLeft
        rw [dropRunes_zero spaceLen (_ ++ _), hk, if_neg h]
        congr 1
        rw [List.drop_append_of_le_length (by omega), List.drop_of_length_le (by omega)]
        simp

theorem TrimSpace_TrimLeft (s : Bytes) : TrimSpace (TrimLeft s) = TrimSpace s := by
  unfold TrimSpace
  rw [TrimLeft_idem]

theorem TrimSpace_TrimRight (s : Bytes) : TrimSpace (TrimRight s) = TrimSpace s := by
  unfold TrimSpace
  rw [TrimLeft_TrimRight _ s (Nat.le_refl _), TrimRight_idem]

/-! ## The header map against its reference definition -/

theorem TrimSpace_subset {s : Bytes} {x : Nat} (h : x ∈ TrimSpace s) : x ∈ s := by
  unfold TrimSpace at h
  exact (TrimLeft_suffix s).subset ((TrimRight_initial _).subset h)

/-- One round of the header loop, read off the raw line: a line without colon leaves the map
as it is; otherwise the trimmed text before the first colon is set to the trimmed text after
it. -/
theorem recordLine_eq (h : Headers) (l : Bytes) :
    recordLine h l =
      match cutByte 58 l with
      | some p => mapSet h (TrimSpace p.1) (TrimSpace p.2)
      | none => h := by
  unfold recordLine SplitN2
  cases hc : cutByte 58 l with
  | none =>
    have hn : cutByte 58 (TrimSpace l) = none := by
      rw [cutByte_eq_none] at hc ⊢
      exact fun hm => hc (TrimSpace_subset hm)
    rw [hn]
  | some p =>
    obtain ⟨a, b⟩ := p
    obtain ⟨e, hn⟩ := cutByte_eq_some hc
    have hn2 : (58 : Nat) ∉ TrimLeft a := fun hm => hn ((TrimLeft_suffix a).subset hm)
    rw [e, TrimSpace_colon, cutByte_append _ hn2]
    simp only [TrimSpace_TrimLeft, TrimSpace_TrimRight]

theorem mapGet_mapSet (h : Headers) (k v N : Bytes) :
    mapGet (mapSet h k v) N = if k = N then some v else mapGet h N := by
  simp [mapSet, mapGet]

theorem specHeaders_append (block : List Bytes) (l N : Bytes) :
    specHeaders (block ++ [l]) N =
      if namesHeader N l = true then (cutByte 58 l).map (fun p => TrimSpace p.2)
      else specHeaders block N := by
  unfold specHeaders
  rw [List.reverse_append, List.reverse_singleton, List.singleton_append, List.find?_cons]
  cases namesHeader N l <;> simp

/-- The map built by the header loop from a block of lines answers every lookup as the
reference definition does, lines of the block taking precedence over what the map held
before. -/
theorem foldl_recordLine_get (block : List Bytes) (N : Bytes) :
    ∀ h : Headers, mapGet (block.foldl recordLine h) N =
      match specHeaders block N with
      | some v => some v
      | none => mapGet h N := by
  induction block using List.reverseRecOn with
  | nil => intro h; simp [specHeaders]
  | append_singleton init l ih =>
    intro h
    rw [List.foldl_append, List.foldl_cons, List.foldl_nil, recordLine_eq, specHeaders_append]
    cases hc : cutByte 58 l with
    | none =>
      have : namesHeader N l = false := by simp [namesHeader, hc]
      simp only [this]
      exact ih h
    | some p =>
      simp only [mapGet_mapSet]
      by_cases hk : TrimSpace p.1 = N
      · have : namesHeader N l = true := by simp [namesHeader, hc, hk]
        simp [this, hk]
      · have : namesHeader N l = false := by simp [namesHeader, hc, hk]
        simp only [this, hk, if_false]
        exact ih h

/-- C3: for a stream whose request line has two tokens and whose header block is closed by a
terminator line, a request is handed to the handlers and its header map answers every name
`N` as the reference definition does: the trimmed text after the first colon of the LAST line
before the terminator whose trimmed text before its first colon is `N`; lines without colon
contribute nothing, and only the first colon of a line separates name and value. -/
theorem headers_refine_reference (rd : Reader) (line rest method path : Bytes)
    (more : List Bytes) (h : cutLine 10 rd.all = some (line, rest))
    (hf : Fields line = method :: path :: more) (hb : (linesOf rest).any isBlank = true) :
    ∃ req rd1, readRequest rd = (some req, rd1) ∧
      ∀ N, mapGet req.headers N = specHeaders (headerBlock (linesOf rest)) N := by
  have := readRequest_some h
  rw [hf] at this
  simp only [hb, if_true] at this
  cases hr : readRequest rd with
  | mk o rd1 =>
    rw [hr] at this
    simp only at this
    subst this
    refine ⟨_, rd1, rfl, ?_⟩
    intro N
    rw [foldl_recordLine_get]
    cases specHeaders (headerBlock (linesOf rest)) N <;> simp [mapGet]

theorem headers_refine_reference_witness :
    ∃ req rd1,
      readRequest ⟨[], [ascii "GET / HTTP/1.1\r\nA : 1\r\nno colon\r\n", ascii "B: x:y \r\nA:2\r\n\r\nab"]⟩
        = (some req, rd1) ∧
      ∀ N, mapGet req.headers N =
        specHeaders (headerBlock (linesOf
          (ascii "A : 1\r\nno colon\r\nB: x:y \r\nA:2\r\n\r\nab"))) N :=
  headers_refine_reference
    ⟨[], [ascii "GET / HTTP/1.1\r\nA : 1\r\nno colon\r\n", ascii "B: x:y \r\nA:2\r\n\r\nab"]⟩
    (ascii "GET / HTTP/1.1\r\n") (ascii "A : 1\r\nno colon\r\nB: x:y \r\nA:2\r\n\r\nab")
    (ascii "GET") (ascii "/") [ascii "HTTP/1.1"] (by decide) (by decide) (by decide)

/-! ## The `User-Agent` route away from format verbs -/

theorem sprintfGo_plain (fuel : Nat) :
    ∀ s : Bytes, s.length < fuel → 37 ∉ s → sprintfGo fuel s = s := by
  induction fuel with
  | zero => intro s h; omega
  | succ f ih =>
    intro s hl hp
    cases s with
    | nil => rfl
    | cons c r =>
      have hc : ¬ c = 37 := fun e => hp (by simp [e])
      have hr : 37 ∉ r := fun e => hp (by simp [e])
      rw [sprintfGo, if_neg hc, ih r (by simpa using hl) hr]

/-- A format without `%` is printed as it stands. -/
theorem Sprintf_plain {v : Bytes} (h : 37 ∉ v) : Sprintf v = v :=
  sprintfGo_plain _ v (Nat.lt_succ_self _) h

/-- On `GET /user-agent` a non-empty `User-Agent` value free of `%` is echoed unchanged with
its byte length as `Content-Length`, and without the exact key `User-Agent`, or with an empty
value, the body is `Unknown` with `Content-Length: 7`. -/
theorem user_agent_echo_plain (env : Env) (fs : FileStore) (rd rd1 : Reader) (req : Request)
    (hreq : readRequest rd = (some req, rd1)) (hm : req.method = ascii "GET")
    (hp : req.path = ascii "/user-agent") :
    (∀ v, mapGet req.headers (ascii "User-Agent") = some v → v ≠ [] → 37 ∉ v →
      (handleConnection env fs rd).out =
        ascii "HTTP/1.1 200 OK\r\nContent-Type: text/plain\r\nContent-Length: "
          ++ itoa v.length ++ ascii "\r\n\r\n" ++ v) ∧
    (mapGet req.headers (ascii "User-Agent") = none ∨
        mapGet req.headers (ascii "User-Agent") = some [] →
      (handleConnection env fs rd).out =
        ascii "HTTP/1.1 200 OK\r\nContent-Type: text/plain\r\nContent-Length: 7\r\n\r\nUnknown") := by
  have h1 : ascii "/user-agent" ≠ ascii "/" := by decide
  rw [handleConnection_of_request hreq, if_pos hm, hp]
  unfold handleGetRequest
  simp only [h1, if_false, if_true]
  constructor
  · intro v hv hne hpc
    simp [hv, hne, Sprintf_plain hpc, reply]
  · intro h
    have e : (mapGet req.headers (ascii "User-Agent")).getD [] = [] := by
      rcases h with h | h <;> simp [h]
    have e2 : Sprintf (ascii "Unknown") = ascii "Unknown" := by decide
    have e3 : ascii "HTTP/1.1 200 OK\r\nContent-Type: text/plain\r\nContent-Length: "
        ++ itoa (ascii "Unknown").length ++ ascii "\r\n\r\n" ++ ascii "Unknown" =
        ascii "HTTP/1.1 200 OK\r\nContent-Type: text/plain\r\nContent-Length: 7\r\n\r\nUnknown" := by
      decide
    simp only [e, if_true, e2, reply, e3]

/-! ## Dispatch on the method and the catch-all routes -/

/-- C15: a request that was read and whose method is neither `GET` nor `POST` is answered by
exactly the 405 status line, whatever its path and headers, and the file store is
unchanged. -/
theorem other_method_not_allowed (env : Env) (fs : FileStore) (rd rd1 : Reader) (req : Request)
    (hreq : readRequest rd = (some req, rd1)) (hg : req.method ≠ ascii "GET")
    (hp : req.method ≠ ascii "POST") :
    (handleConnection env fs rd).out = ascii "HTTP/1.1 405 Method Not Allowed\r\n\r\n" ∧
    (handleConnection env fs rd).fs = fs := by
  rw [handleConnection_of_request hreq, if_neg hg, if_neg hp]
  exact ⟨rfl, rfl⟩

theorem other_method_not_allowed_witness :
    (handleConnection (envOf (ascii "/tmp/") some) emptyStore
        ⟨[], [ascii "get /files/a HTTP/1.1\r\nContent-Length: 1\r\n\r\nx"]⟩).out =
      ascii "HTTP/1.1 405 Method Not Allowed\r\n\r\n" ∧
    (handleConnection (envOf (ascii "/tmp/") some) emptyStore
        ⟨[], [ascii "get /files/a HTTP/1.1\r\nContent-Length: 1\r\n\r\nx"]⟩).fs = emptyStore :=
  other_method_not_allowed (envOf (ascii "/tmp/") some) emptyStore
    ⟨[], [ascii "get /files/a HTTP/1.1\r\nContent-Length: 1\r\n\r\nx"]⟩ ⟨ascii "x", []⟩
    ⟨ascii "get", ascii "/files/a", [(ascii "Content-Length", ascii "1")]⟩
    (by decide) (by decide) (by decide)

/-- C16, as stated, fails: `DELETE /nope` is a valid request whose path matches no route, and
it is answered by the 405 status line with no body, not by 404 and `Path not found`. -/
theorem unmatched_path_other_method_is_405 :
    (readRequest ⟨[], [ascii "DELETE /nope HTTP/1.1\r\nHost: x\r\n\r\n"]⟩).1 =
      some ⟨ascii "DELETE", ascii "/nope", [(ascii "Host", ascii "x")]⟩ ∧
    (handleConnection (envOf (ascii "/tmp/") some) emptyStore
        ⟨[], [ascii "DELETE /nope HTTP/1.1\r\nHost: x\r\n\r\n"]⟩).out =
      ascii "HTTP/1.1 405 Method Not Allowed\r\n\r\n" ∧
    (handleConnection (envOf (ascii "/tmp/") some) emptyStore
        ⟨[], [ascii "DELETE /nope HTTP/1.1\r\nHost: x\r\n\r\n"]⟩).out ≠
      ascii "HTTP/1.1 404 Not Found\r\n\r\nPath not found\n" := by
  decide

/-- C16, amended: a `GET` whose path is none of `/`, `/user-agent`, `/echo/...`,
`/files/...`, and a `POST` whose path does not start with `/files`, are answered by exactly
the 404 status line, the empty line and the body `Path not found` with its newline. -/
theorem unmatched_path_not_found (env : Env) (fs : FileStore) (rd rd1 : Reader) (req : Request)
    (hreq : readRequest rd = (some req, rd1))
    (hroute : (req.method = ascii "GET" ∧ req.path ≠ ascii "/" ∧ req.path ≠ ascii "/user-agent" ∧
        HasPrefix req.path (ascii "/echo/") = false ∧
        HasPrefix req.path (ascii "/files/") = false) ∨
      (req.method = ascii "POST" ∧ HasPrefix req.path (ascii "/files") = false)) :
    (handleConnection env fs rd).out = ascii "HTTP/1.1 404 Not Found\r\n\r\nPath not found\n" := by
  rw [handleConnection_of_request hreq]
  rcases hroute with ⟨hm, h1, h2, h3, h4⟩ | ⟨hm, h1⟩
  · rw [if_pos hm]
    unfold handleGetRequest
    simp [h1, h2, h3, h4, reply]
  · have hne : req.method ≠ ascii "GET" := by rw [hm]; exact ascii_get_ne_post
    rw [if_neg hne, if_pos hm]
    unfold handlePostRequest
    simp [h1, reply]

theorem unmatched_path_not_found_witness :
    (handleConnection (envOf (ascii "/tmp/") some) emptyStore
        ⟨[], [ascii "GET /files HTTP/1.1\r\n\r\n"]⟩).out =
      ascii "HTTP/1.1 404 Not Found\r\n\r\nPath not found\n" ∧
    (handleConnection (envOf (ascii "/tmp/") some) emptyStore
        ⟨[], [ascii "POST /user-agent HTTP/1.1\r\n\r\n"]⟩).out =
      ascii "HTTP/1.1 404 Not Found\r\n\r\nPath not found\n" :=
  ⟨unmatched_path_not_found (envOf (ascii "/tmp/") some) emptyStore
      ⟨[], [ascii "GET /files HTTP/1.1\r\n\r\n"]⟩ ⟨[], []⟩ ⟨ascii "GET", ascii "/files", []⟩
      (by decide) (Or.inl (by decide)),
   unmatched_path_not_found (envOf (ascii "/tmp/") some) emptyStore
      ⟨[], [ascii "POST /user-agent HTTP/1.1\r\n\r\n"]⟩ ⟨[], []⟩
      ⟨ascii "POST", ascii "/user-agent", []⟩ (by decide) (Or.inr (by decide))⟩

/-! ## Short reads and the negative length -/

/-- C11: a POST of `/files/a` declaring `Content-Length: 5` whose stream ends after the two
body bytes `hi`: fewer bytes are available than declared, yet the answer is 201, not 400, and
the file is created, holding `hi` and three zero bytes. -/
theorem upload_short_body_accepted :
    (readRequest ⟨[], [ascii "POST /files/a HTTP/1.1\r\nContent-Length: 5\r\n\r\nhi"]⟩) =
      (some ⟨ascii "POST", ascii "/files/a", [(ascii "Content-Length", ascii "5")]⟩,
        ⟨ascii "hi", []⟩) ∧
    (handleConnection (envOf (ascii "/tmp/") some) emptyStore
        ⟨[], [ascii "POST /files/a HTTP/1.1\r\nContent-Length: 5\r\n\r\nhi"]⟩).out =
      ascii "HTTP/1.1 201 Created\r\nContent-Type: text/plain\r\nContent-Length: 5\r\n\r\nhi"
        ++ [0, 0, 0] ∧
    (handleConnection (envOf (ascii "/tmp/") some) emptyStore
        ⟨[], [ascii "POST /files/a HTTP/1.1\r\nContent-Length: 5\r\n\r\nhi"]⟩).out ≠
      ascii "HTTP/1.1 400 Bad Request\r\n\r\n" ∧
    emptyStore.files (ascii "/tmp/a") = none ∧
    (handleConnection (envOf (ascii "/tmp/") some) emptyStore
        ⟨[], [ascii "POST /files/a HTTP/1.1\r\nContent-Length: 5\r\n\r\nhi"]⟩).fs.files
        (ascii "/tmp/a") = some (ascii "hi" ++ [0, 0, 0]) := by
  decide

/-- C14: the file `/tmp/a` has size 5 and its read returns 2 bytes without error: the handler
does not treat it as an error, it writes a 200 response with `Content-Length: 5` whose body is
the two bytes read padded with three zero bytes. -/
theorem short_file_read_padded :
    fileRead (ascii "hello") (shortReadStore.readLimit (ascii "/tmp/a")) 5 = some (ascii "he") ∧
    (handleConnection (envOf (ascii "/tmp/") some) shortReadStore
        ⟨[], [ascii "GET /files/a HTTP/1.1\r\n\r\n"]⟩).out =
      ascii "HTTP/1.1 200 OK\r\nContent-Type: application/octet-stream\r\nContent-Length: 5\r\n\r\nhe"
        ++ [0, 0, 0] := by
  decide

/-- C18: a POST of `/files/x` with `Content-Length: -1`, in a process started with its
directory argument: `Atoi` accepts the value, the length handed to `make` is negative, the
goroutine panics and no status line is written. -/
theorem negative_length_panics :
    (readRequest ⟨[], [ascii "POST /files/x HTTP/1.1\r\nContent-Length: -1\r\n\r\n"]⟩).1 =
      some ⟨ascii "POST", ascii "/files/x", [(ascii "Content-Length", ascii "-1")]⟩ ∧
    Atoi (ascii "-1") = some (-1) ∧
    (handleConnection (envOf (ascii "/tmp/") some) emptyStore
        ⟨[], [ascii "POST /files/x HTTP/1.1\r\nContent-Length: -1\r\n\r\n"]⟩).panicked = true ∧
    (handleConnection (envOf (ascii "/tmp/") some) emptyStore
        ⟨[], [ascii "POST /files/x HTTP/1.1\r\nContent-Length: -1\r\n\r\n"]⟩).out = [] := by
  decide

/-! ## The upload that succeeds, and the file that is served -/

theorem Read_length {rd rd1 : Reader} {n : Nat} {got : Bytes}
    (h : rd.Read n = (some got, rd1)) : got.length ≤ n := by
  unfold Reader.Read at h
  by_cases hn0 : n = 0
  · simp only [hn0, if_true, Prod.mk.injEq, Option.some.injEq] at h
    rw [← h.1]; simp
  rw [if_neg hn0] at h
  split at h
  · simp only [Prod.mk.injEq, Option.some.injEq] at h
    rw [← h.1]; simp only [List.length_take]; omega
  split at h
  · split at h
    · simp at h
    · rename_i hc
      simp only [Prod.mk.injEq, Option.some.injEq] at h
      rw [← h.1]
      exact (connRead_some (Nat.pos_of_ne_zero hn0) hc).2.2
  · split at h
    · simp at h
    · simp only [Prod.mk.injEq, Option.some.injEq] at h
      rw [← h.1]; simp only [List.length_take]; omega

/-- The upload branch of `handlePostRequest` when nothing fails: the buffer of `n` bytes into
which one read copied `got` is written to `dir ++ "/" ++ fileName` and echoed after the 201
status line. -/
theorem handleConnection_upload {env : Env} {fs : FileStore} {rd rd1 rd2 : Reader}
    {req : Request} {dir v got : Bytes} {n : Nat}
    (hreq : readRequest rd = (some req, rd1)) (hm : req.method = ascii "POST")
    (hp : HasPrefix req.path (ascii "/files") = true) (hdir : env.args[2]? = some dir)
    (hcl : mapGet req.headers (ascii "Content-Length") = some v)
    (hn : Atoi v = some (n : Int)) (hread : rd1.Read n = (some got, rd2))
    (hcreate : fs.createErr
      (cleanPath (dir ++ ascii "/" ++ TrimPrefix req.path (ascii "/files/"))) = false)
    (hwrite : ∀ k, fs.writeLimit
      (cleanPath (dir ++ ascii "/" ++ TrimPrefix req.path (ascii "/files/"))) = some k → n ≤ k) :
    handleConnection env fs rd =
      reply (ascii "HTTP/1.1 201 Created\r\nContent-Type: text/plain\r\nContent-Length: "
          ++ itoa n ++ ascii "\r\n\r\n" ++ fillSlice n got)
        (fs.put (dir ++ ascii "/" ++ TrimPrefix req.path (ascii "/files/")) (fillSlice n got))
        rd2 := by
  have hne : req.method ≠ ascii "GET" := by rw [hm]; exact ascii_get_ne_post
  have hlen : (fillSlice n got).length = n := fillSlice_length (Read_length hread)
  have hnn : ¬ ((n : Int) < 0) := by omega
  rw [handleConnection_of_request hreq, if_neg hne, if_pos hm]
  unfold handlePostRequest
  simp only [hp, if_true, hdir, hcl, hn, hnn, if_false, Int.toNat_ofNat, hread, hcreate,
    Bool.false_eq_true, hlen]
  cases hw : fs.writeLimit
      (cleanPath (dir ++ ascii "/" ++ TrimPrefix req.path (ascii "/files/"))) with
  | none => rfl
  | some k =>
    have hk : ¬ k < n := by have := hwrite k hw; omega
    simp only [hk, if_false]

/-- C12, as stated, fails: the upload of the five bytes `hello` is answered with the body
`hello`, the uploaded bytes, not with the byte count `5`. -/
theorem upload_body_is_not_count :
    parseResponse (handleConnection (envOf (ascii "/tmp/") some) emptyStore
        ⟨[], [ascii "POST /files/foo.txt HTTP/1.1\r\nContent-Length: 5\r\n\r\nhello"]⟩).out =
      some ([ascii "HTTP/1.1 201 Created", ascii "Content-Type: text/plain",
        ascii "Content-Length: 5"], ascii "hello") ∧
    ascii "hello" ≠ itoa 5 := by
  decide

/-- C12, amended: for every upload that succeeds (POST with path prefix `/files`, process
started with its directory argument, a `Content-Length` that `Atoi` reads as `n >= 0` within
the allocation limit, a read that delivers the `n` body bytes `got`, the creation and the
write without error) the bytes written are exactly the status line `HTTP/1.1 201 Created`,
`Content-Type: text/plain`, `Content-Length: n`, the empty line and `got`: the response body
is the uploaded bytes themselves, the same bytes that the file now holds, and the
`Content-Length` line carries the byte length of that body. -/
theorem upload_echoes_body (env : Env) (fs : FileStore) (rd rd1 rd2 : Reader) (req : Request)
    (dir v got : Bytes) (n : Nat)
    (hreq : readRequest rd = (some req, rd1)) (hm : req.method = ascii "POST")
    (hp : HasPrefix req.path (ascii "/files") = true) (hdir : env.args[2]? = some dir)
    (hcl : mapGet req.headers (ascii "Content-Length") = some v)
    (hn : Atoi v = some (n : Int)) (hsize : n ≤ maxAlloc)
    (hread : rd1.Read n = (some got, rd2)) (hgot : got.length = n)
    (hcreate : fs.createErr
      (cleanPath (dir ++ ascii "/" ++ TrimPrefix req.path (ascii "/files/"))) = false)
    (hwrite : ∀ k, fs.writeLimit
      (cleanPath (dir ++ ascii "/" ++ TrimPrefix req.path (ascii "/files/"))) = some k → n ≤ k) :
    (handleConnection env fs rd).out =
      ascii "HTTP/1.1 201 Created\r\nContent-Type: text/plain\r\nContent-Length: "
        ++ itoa n ++ ascii "\r\n\r\n" ++ got ∧
    parseResponse (handleConnection env fs rd).out =
      some ([ascii "HTTP/1.1 201 Created", ascii "Content-Type: text/plain",
        ascii "Content-Length: " ++ itoa got.length], got) ∧
    (handleConnection env fs rd).fs =
      fs.put (dir ++ ascii "/" ++ TrimPrefix req.path (ascii "/files/")) got ∧
    (handleConnection env fs rd).fs.openFile
      (dir ++ ascii "/" ++ TrimPrefix req.path (ascii "/files/")) = some got ∧
    (handleConnection env fs rd).panicked = false := by
  have _ := hsize
  have hfill : fillSlice n got = got := by simp [fillSlice, hgot]
  rw [handleConnection_upload hreq hm hp hdir hcl hn hread hcreate hwrite, hfill]
  refine ⟨rfl, ?_, rfl, ?_, rfl⟩
  · simp only [reply]
    rw [render_created_len, ← hgot]
    exact parseResponse_render (by decide) (by simp [headerSets])
  · simp [reply, FileStore.openFile, FileStore.put]

theorem upload_echoes_body_witness :
    (handleConnection (envOf (ascii "/tmp/") some) emptyStore
      ⟨[], [ascii "POST /files/foo.txt HTTP/1.1\r\nContent-Length: 5\r\n\r\nhello"]⟩).out =
      ascii "HTTP/1.1 201 Created\r\nContent-Type: text/plain\r\nContent-Length: "
        ++ itoa 5 ++ ascii "\r\n\r\n" ++ ascii "hello" ∧
    parseResponse (handleConnection (envOf (ascii "/tmp/") some) emptyStore
      ⟨[], [ascii "POST /files/foo.txt HTTP/1.1\r\nContent-Length: 5\r\n\r\nhello"]⟩).out =
      some ([ascii "HTTP/1.1 201 Created", ascii "Content-Type: text/plain",
        ascii "Content-Length: " ++ itoa (ascii "hello").length], ascii "hello") ∧
    (handleConnection (envOf (ascii "/tmp/") some) emptyStore
      ⟨[], [ascii "POST /files/foo.txt HTTP/1.1\r\nContent-Length: 5\r\n\r\nhello"]⟩).fs =
      emptyStore.put
        (ascii "/tmp/" ++ ascii "/" ++ TrimPrefix (ascii "/files/foo.txt") (ascii "/files/"))
        (ascii "hello") ∧
    (handleConnection (envOf (ascii "/tmp/") some) emptyStore
      ⟨[], [ascii "POST /files/foo.txt HTTP/1.1\r\nContent-Length: 5\r\n\r\nhello"]⟩).fs.openFile
      (ascii "/tmp/" ++ ascii "/" ++ TrimPrefix (ascii "/files/foo.txt") (ascii "/files/")) =
      some (ascii "hello") ∧
    (handleConnection (envOf (ascii "/tmp/") some) emptyStore
      ⟨[], [ascii "POST /files/foo.txt HTTP/1.1\r\nContent-Length: 5\r\n\r\nhello"]⟩).panicked =
      false :=
  upload_echoes_body (envOf (ascii "/tmp/") some) emptyStore
    ⟨[], [ascii "POST /files/foo.txt HTTP/1.1\r\nContent-Length: 5\r\n\r\nhello"]⟩
    ⟨ascii "hello", []⟩ ⟨[], []⟩
    ⟨ascii "POST", ascii "/files/foo.txt", [(ascii "Content-Length", ascii "5")]⟩
    (ascii "/tmp/") (ascii "5") (ascii "hello") 5
    (by decide) (by decide) (by decide) (by decide) (by decide) (by decide) (by decide)
    (by decide) (by decide) (by decide) (by decide)

/-- The file branch of `handleGetRequest` is the one taken on a path `/files/<name>`. -/
theorem handleGetRequest_files (env : Env) (fs : FileStore) (rd : Reader) (name : Bytes)
    (headers : Headers) :
    handleGetRequest env fs rd (ascii "/files/" ++ name) headers =
      match env.args[2]? with
      | none => panicNow fs rd
      | some dir =>
        match fs.openFile (dir ++ name) with
        | none => reply (ascii "HTTP/1.1 404 Not Found\r\n\r\n") fs rd
        | some content =>
          match fileRead content (fs.readLimit (cleanPath (dir ++ name))) content.length with
          | none => reply (ascii "HTTP/1.1 404 Not Found\r\n\r\n") fs rd
          | some got =>
            reply (ascii "HTTP/1.1 200 OK\r\nContent-Type: application/octet-stream\r\nContent-Length: "
              ++ itoa content.length ++ ascii "\r\n\r\n" ++ fillSlice content.length got) fs rd := by
  have h1 : ascii "/files/" ++ name ≠ ascii "/" := by simp [ascii_files_slash, ascii_root]
  have h2 : ascii "/files/" ++ name ≠ ascii "/user-agent" := by
    simp [ascii_files_slash, ascii_user_agent]
  have h3 : HasPrefix (ascii "/files/" ++ name) (ascii "/echo/") = false := by
    simp [HasPrefix, ascii_files_slash, ascii_echo, List.isPrefixOf]
  unfold handleGetRequest
  simp only [h1, h2, h3, if_false, HasPrefix_append, TrimPrefix_append, if_true,
    Bool.false_eq_true]

theorem fileRead_whole {c : Bytes} {limit : Option Nat}
    (h : ∀ k, limit = some k → c.length ≤ k) : fileRead c limit c.length = some c := by
  unfold fileRead
  by_cases h0 : c.length = 0
  · simp [h0, List.length_eq_zero.mp h0]
  · have hm : min c.length (limit.getD c.length) = c.length := by
      cases limit with
      | none => simp
      | some k => have := h k rfl; simp; omega
    have hne : c ≠ [] := fun e => h0 (by simp [e])
    simp [h0, hm, hne]

/-- The file route when the read is whole: a GET of `/files/<name>`, in a process started
with its directory argument. When the path made of the base directory directly followed by
`name` holds a file of content `C` whose read delivers it whole, exactly the 200 status line, `Content-Type:
application/octet-stream`, `Content-Length: |C|`, the empty line and `C` are written; when
nothing can be opened at that path, exactly the 404 status line is written. -/
theorem file_served (env : Env) (fs : FileStore) (rd rd1 : Reader) (req : Request)
    (dir name : Bytes)
    (hreq : readRequest rd = (some req, rd1)) (hm : req.method = ascii "GET")
    (hp : req.path = ascii "/files/" ++ name) (hdir : env.args[2]? = some dir) :
    (∀ C, fs.openFile (dir ++ name) = some C →
      (∀ k, fs.readLimit (cleanPath (dir ++ name)) = some k → C.length ≤ k) →
      (handleConnection env fs rd).out =
        ascii "HTTP/1.1 200 OK\r\nContent-Type: application/octet-stream\r\nContent-Length: "
          ++ itoa C.length ++ ascii "\r\n\r\n" ++ C) ∧
    (fs.openFile (dir ++ name) = none →
      (handleConnection env fs rd).out = ascii "HTTP/1.1 404 Not Found\r\n\r\n") := by
  rw [handleConnection_of_request hreq, if_pos hm, hp, handleGetRequest_files, hdir]
  constructor
  · intro C hC hlim
    simp [hC, fileRead_whole hlim, reply, fillSlice]
  · intro hC
    simp [hC, reply]

theorem file_served_witness :
    (handleConnection (envOf (ascii "/srv") some)
        ⟨fun p => if p = ascii "/srvdata.bin" then some [0, 255, 13, 10] else none,
          fun _ => false, fun _ => none, fun _ => none⟩
        ⟨[], [ascii "GET /files/data.bin HTTP/1.1\r\n\r\n"]⟩).out =
      ascii "HTTP/1.1 200 OK\r\nContent-Type: application/octet-stream\r\nContent-Length: "
        ++ itoa [0, 255, 13, 10].length ++ ascii "\r\n\r\n" ++ [0, 255, 13, 10] ∧
    (handleConnection (envOf (ascii "/srv") some) emptyStore
        ⟨[], [ascii "GET /files/data.bin HTTP/1.1\r\n\r\n"]⟩).out =
      ascii "HTTP/1.1 404 Not Found\r\n\r\n" :=
  ⟨(file_served (envOf (ascii "/srv") some)
      ⟨fun p => if p = ascii "/srvdata.bin" then some [0, 255, 13, 10] else none,
        fun _ => false, fun _ => none, fun _ => none⟩
      ⟨[], [ascii "GET /files/data.bin HTTP/1.1\r\n\r\n"]⟩ ⟨[], []⟩
      ⟨ascii "GET", ascii "/files/data.bin", []⟩ (ascii "/srv") (ascii "data.bin")
      (by decide) (by decide) (by decide) (by decide)).1 [0, 255, 13, 10] (by decide)
      (by intro k hk; simp at hk),
   (file_served (envOf (ascii "/srv") some) emptyStore
      ⟨[], [ascii "GET /files/data.bin HTTP/1.1\r\n\r\n"]⟩ ⟨[], []⟩
      ⟨ascii "GET", ascii "/files/data.bin", []⟩ (ascii "/srv") (ascii "data.bin")
      (by decide) (by decide) (by decide) (by decide)).2 (by decide)⟩

/-- C13: the base directory is `/tmp/` and the path `/tmp/a`, the base directory directly
followed by the name `a`, holds a file of content `hello`; its read returns two bytes without
error. The bytes written on `GET /files/a` are not the 200 response followed by `hello` that
the claim states: the body is `he` and three zero bytes. -/
theorem file_not_served_whole :
    shortReadStore.openFile (ascii "/tmp/" ++ ascii "a") = some (ascii "hello") ∧
    (readRequest ⟨[], [ascii "GET /files/a HTTP/1.1\r\nHost: x\r\n\r\n"]⟩).1 =
      some ⟨ascii "GET", ascii "/files/" ++ ascii "a", [(ascii "Host", ascii "x")]⟩ ∧
    (handleConnection (envOf (ascii "/tmp/") some) shortReadStore
        ⟨[], [ascii "GET /files/a HTTP/1.1\r\nHost: x\r\n\r\n"]⟩).out ≠
      ascii "HTTP/1.1 200 OK\r\nContent-Type: application/octet-stream\r\nContent-Length: "
        ++ itoa (ascii "hello").length ++ ascii "\r\n\r\n" ++ ascii "hello" ∧
    (handleConnection (envOf (ascii "/tmp/") some) shortReadStore
        ⟨[], [ascii "GET /files/a HTTP/1.1\r\nHost: x\r\n\r\n"]⟩).out =
      ascii "HTTP/1.1 200 OK\r\nContent-Type: application/octet-stream\r\nContent-Length: "
        ++ itoa (ascii "hello").length ++ ascii "\r\n\r\n" ++ (ascii "he" ++ [0, 0, 0]) := by
  decide

/-- C20: a POST whose path starts with `/files` but not with `/files/`, with a
`Content-Length` that `Atoi` reads as `n >= 0`, whose read delivers the `n` body bytes, and
whose file can be created and written: the upload route is taken (the answer is 201, not
404) and the file written is the base directory, a slash, and the whole request path. -/
theorem upload_route_without_slash (env : Env) (fs : FileStore) (rd rd1 rd2 : Reader)
    (req : Request) (dir v got : Bytes) (n : Nat)
    (hreq : readRequest rd = (some req, rd1)) (hm : req.method = ascii "POST")
    (hp : HasPrefix req.path (ascii "/files") = true)
    (hnp : HasPrefix req.path (ascii "/files/") = false)
    (hdir : env.args[2]? = some dir)
    (hcl : mapGet req.headers (ascii "Content-Length") = some v)
    (hn : Atoi v = some (n : Int)) (hread : rd1.Read n = (some got, rd2))
    (hgot : got.length = n)
    (hcreate : fs.createErr (cleanPath (dir ++ ascii "/" ++ req.path)) = false)
    (hwrite : ∀ k, fs.writeLimit (cleanPath (dir ++ ascii "/" ++ req.path)) = some k → n ≤ k) :
    (handleConnection env fs rd).out =
      ascii "HTTP/1.1 201 Created\r\nContent-Type: text/plain\r\nContent-Length: "
        ++ itoa n ++ ascii "\r\n\r\n" ++ got ∧
    (handleConnection env fs rd).fs = fs.put (dir ++ ascii "/" ++ req.path) got ∧
    (handleConnection env fs rd).fs.openFile (dir ++ ascii "/" ++ req.path) = some got := by
  have ht : TrimPrefix req.path (ascii "/files/") = req.path := by
    unfold HasPrefix at hnp
    simp [TrimPrefix, hnp]
  have hfill : fillSlice n got = got := by simp [fillSlice, hgot]
  rw [← ht] at hcreate hwrite
  rw [handleConnection_upload hreq hm hp hdir hcl hn hread hcreate hwrite, ht, hfill]
  simp [reply, FileStore.openFile, FileStore.put]

theorem upload_route_without_slash_witness :
    (handleConnection (envOf (ascii "/tmp") some) emptyStore
        ⟨[], [ascii "POST /filesX HTTP/1.1\r\nContent-Length: 2\r\n\r\nhi"]⟩).out =
      ascii "HTTP/1.1 201 Created\r\nContent-Type: text/plain\r\nContent-Length: "
        ++ itoa 2 ++ ascii "\r\n\r\n" ++ ascii "hi" ∧
    (handleConnection (envOf (ascii "/tmp") some) emptyStore
        ⟨[], [ascii "POST /filesX HTTP/1.1\r\nContent-Length: 2\r\n\r\nhi"]⟩).fs =
      emptyStore.put (ascii "/tmp" ++ ascii "/" ++ ascii "/filesX") (ascii "hi") ∧
    (handleConnection (envOf (ascii "/tmp") some) emptyStore
        ⟨[], [ascii "POST /filesX HTTP/1.1\r\nContent-Length: 2\r\n\r\nhi"]⟩).fs.openFile
        (ascii "/tmp" ++ ascii "/" ++ ascii "/filesX") = some (ascii "hi") :=
  upload_route_without_slash (envOf (ascii "/tmp") some) emptyStore
    ⟨[], [ascii "POST /filesX HTTP/1.1\r\nContent-Length: 2\r\n\r\nhi"]⟩ ⟨ascii "hi", []⟩ ⟨[], []⟩
    ⟨ascii "POST", ascii "/filesX", [(ascii "Content-Length", ascii "2")]⟩
    (ascii "/tmp") (ascii "2") (ascii "hi") 2
    (by decide) (by decide) (by decide) (by decide) (by decide) (by decide) (by decide)
    (by decide) (by decide) (by decide) (by decide)

/-! ## The status line and the header names of every response -/

theorem render_ne_nil (lines : List Bytes) (body : Bytes) : render lines body ≠ [] := by
  intro h
  have := congrArg List.length h
  simp [render, crlf] at this

theorem settled_reply {out : Bytes} (h : WellFramed out) (hne : out ≠ []) (fs : FileStore)
    (rd : Reader) : Settled (reply out fs rd) := by
  rcases h with h | h
  · exact absurd h hne
  · exact Or.inr ⟨rfl, h⟩

theorem settled_panic (fs : FileStore) (rd : Reader) : Settled (panicNow fs rd) :=
  Or.inl ⟨rfl, rfl⟩

theorem handleGetRequest_settled (env : Env) (fs : FileStore) (rd : Reader) (path : Bytes)
    (headers : Headers) : Settled (handleGetRequest env fs rd path headers) := by
  unfold handleGetRequest
  dsimp only
  split
  · exact settled_reply wf_hello (by decide) _ _
  split
  · exact settled_reply (wf_plain_len _) (by simp [ascii]) _ _
  split
  · split
    · split
      · split
        · exact settled_reply wf_500 (by decide) _ _
        · exact settled_reply (wf_gzip_len _) (by simp [ascii]) _ _
      · exact settled_reply wf_plain_only (by decide) _ _
    · exact settled_reply (wf_plain_len _) (by simp [ascii]) _ _
  split
  · split
    · exact settled_panic _ _
    · split
      · exact settled_reply wf_404 (by decide) _ _
      · split
        · exact settled_reply wf_404 (by decide) _ _
        · rename_i content _ _ got hgot
          have := fillSlice_length (fileRead_length hgot)
          have h2 := wf_octet_len (fillSlice content.length got)
          rw [this] at h2
          exact settled_reply h2 (by simp [ascii]) _ _
  · exact settled_reply wf_not_found (by decide) _ _

theorem handlePostRequest_settled (env : Env) (fs : FileStore) (rd : Reader) (path : Bytes)
    (headers : Headers) : Settled (handlePostRequest env fs rd path headers) := by
  unfold handlePostRequest
  dsimp only
  split
  · split
    · exact settled_panic _ _
    · split
      · exact settled_reply wf_411 (by decide) _ _
      · split
        · exact settled_reply wf_400 (by decide) _ _
        · split
          · exact settled_panic _ _
          · split
            · exact settled_reply wf_400 (by decide) _ _
            · split
              · exact settled_reply wf_500 (by decide) _ _
              · split
                · split
                  · exact settled_reply wf_500 (by decide) _ _
                  · exact settled_reply (wf_created_len _) (by simp [ascii]) _ _
                · exact settled_reply (wf_created_len _) (by simp [ascii]) _ _
  · exact settled_reply wf_not_found (by decide) _ _

/-- Every connection ends either in a panic with nothing written or with one framed response
written. -/
theorem handleConnection_settled (env : Env) (fs : FileStore) (rd : Reader) :
    Settled (handleConnection env fs rd) := by
  unfold handleConnection
  split
  · exact settled_reply wf_400 (by decide) _ _
  · split
    · exact handleGetRequest_settled _ _ _ _ _
    · split
      · exact handlePostRequest_settled _ _ _ _ _
      · exact settled_reply wf_405 (by decide) _ _

theorem statusLines_phrases :
    ∀ st ∈ statusLines, ∃ phrase ∈ reasonPhrases, st = ascii "HTTP/1.1 " ++ phrase := by
  decide

theorem headerSets_names {body : Bytes} {hs : List Bytes} (h : hs ∈ headerSets body) :
    ∀ l ∈ hs, ∃ name ∈ headerNames, ∃ value, l = name ++ ascii ": " ++ value := by
  have c1 : ∃ name ∈ headerNames, ∃ value,
      ascii "Content-Type: text/plain" = name ++ ascii ": " ++ value :=
    ⟨ascii "Content-Type", by decide, ascii "text/plain", by decide⟩
  have c2 : ∃ name ∈ headerNames, ∃ value,
      ascii "Content-Encoding: gzip" = name ++ ascii ": " ++ value :=
    ⟨ascii "Content-Encoding", by decide, ascii "gzip", by decide⟩
  have c3 : ∃ name ∈ headerNames, ∃ value,
      ascii "Content-Type: application/octet-stream" = name ++ ascii ": " ++ value :=
    ⟨ascii "Content-Type", by decide, ascii "application/octet-stream", by decide⟩
  have c4 : ∃ name ∈ headerNames, ∃ value,
      ascii "Content-Length: " ++ itoa body.length = name ++ ascii ": " ++ value := by
    refine ⟨ascii "Content-Length", by decide, itoa body.length, ?_⟩
    have : ascii "Content-Length: " = ascii "Content-Length" ++ ascii ": " := by decide
    rw [this]
  simp only [headerSets, List.mem_cons, List.mem_singleton, List.not_mem_nil, or_false] at h
  rcases h with rfl | rfl | rfl | rfl | rfl <;>
    simp only [List.forall_mem_cons, List.not_mem_nil, IsEmpty.forall_iff, implies_true,
      and_true] <;>
    first
      | exact c1
      | exact ⟨c1, c4⟩
      | exact ⟨c1, c2, c4⟩
      | exact ⟨c3, c4⟩

/-- C17: whenever `handleConnection` returns normally it has written something, and whatever
it writes begins with `HTTP/1.1 `, one of the seven status literals and CRLF, and, read back
as its reader frames it, has a header block in which every line is one of the names
`Content-Type`, `Content-Length`, `Content-Encoding`, a colon, a space and a value. -/
theorem response_status_and_headers (env : Env) (fs : FileStore) (rd : Reader) :
    ((handleConnection env fs rd).panicked = false → (handleConnection env fs rd).out ≠ []) ∧
    ((handleConnection env fs rd).out ≠ [] →
      (∃ phrase ∈ reasonPhrases, ∃ rest,
        (handleConnection env fs rd).out = ascii "HTTP/1.1 " ++ phrase ++ crlf ++ rest) ∧
      (∃ st hs body, parseResponse (handleConnection env fs rd).out = some (st :: hs, body) ∧
        ∀ l ∈ hs, ∃ name ∈ headerNames, ∃ value, l = name ++ ascii ": " ++ value)) := by
  rcases handleConnection_settled env fs rd with ⟨hp, ho⟩ | ⟨hp, st, hs, body, hst, hhs, ho⟩
  · refine ⟨fun h => ?_, fun h => absurd ho h⟩
    rw [hp] at h
    exact absurd h (by decide)
  · refine ⟨fun _ => ?_, fun _ => ⟨?_, ?_⟩⟩
    · rw [ho]; exact render_ne_nil _ _
    · obtain ⟨phrase, hph, e⟩ := statusLines_phrases st hst
      refine ⟨phrase, hph, (hs.map fun l => l ++ crlf).flatten ++ crlf ++ body, ?_⟩
      rw [ho, e]
      simp [render, List.append_assoc]
    · refine ⟨st, hs, body, ?_, headerSets_names hhs⟩
      rw [ho]
      exact parseResponse_render hst hhs

theorem response_status_and_headers_witness :
    (∃ phrase ∈ reasonPhrases, ∃ rest,
      (handleConnection (envOf (ascii "/tmp/") some) emptyStore
        ⟨[], [ascii "GET /echo/abc HTTP/1.1\r\n\r\n"]⟩).out =
        ascii "HTTP/1.1 " ++ phrase ++ crlf ++ rest) ∧
    (∃ st hs body, parseResponse (handleConnection (envOf (ascii "/tmp/") some) emptyStore
        ⟨[], [ascii "GET /echo/abc HTTP/1.1\r\n\r\n"]⟩).out = some (st :: hs, body) ∧
      ∀ l ∈ hs, ∃ name ∈ headerNames, ∃ value, l = name ++ ascii ": " ++ value) :=
  (response_status_and_headers (envOf (ascii "/tmp/") some) emptyStore
    ⟨[], [ascii "GET /echo/abc HTTP/1.1\r\n\r\n"]⟩).2 (by decide)

/-! ## Where the header block ends -/

theorem TrimLeft_spaces (w : Bytes) (h : ∀ b ∈ w, asciiSpace b = true) : TrimLeft w = [] := by
  unfold TrimLeft
  induction w with
  | nil => rfl
  | cons a r ih =>
    have ha : asciiSpace a = true := h a (by simp)
    have hl : spaceLen (a :: r) = 1 := by simp [spaceLen, ha]
    rw [dropRunes, hl]
    simp only [Nat.one_ne_zero, if_false, Nat.sub_self]
    exact ih (fun b hb => h b (by simp [hb]))

/-- A line made of ASCII white space only (spaces, tabs, its CR and LF) is empty once
trimmed. -/
theorem TrimSpace_spaces (w : Bytes) (h : ∀ b ∈ w, asciiSpace b = true) : TrimSpace w = [] := by
  unfold TrimSpace
  rw [TrimLeft_spaces w h]
  rfl

theorem length_le_flatten (block : List Bytes) (h : ∀ l ∈ block, l ≠ []) :
    block.length ≤ block.flatten.length := by
  induction block with
  | nil => simp
  | cons l ls ih =>
    have hl : 0 < l.length := List.length_pos.mpr (h l (by simp))
    have := ih (fun x hx => h x (by simp [hx]))
    simp only [List.length_cons, List.flatten_cons, List.length_append]
    omega

/-- The header loop over a stream that starts with the non-blank lines `block`, then a blank
line `t`, then `body`: it folds the lines of `block` into the map and leaves the reader at
`body`. -/
theorem readHeaders_block (t body : Bytes) (ht : cutLine 10 t = some (t, []))
    (hblank : TrimSpace t = []) (block : List Bytes) :
    ∀ (fuel : Nat) (rd : Reader) (h : Headers), block.length < fuel →
      rd.all = block.flatten ++ t ++ body →
      (∀ l ∈ block, cutLine 10 l = some (l, []) ∧ TrimSpace l ≠ []) →
      ∃ rd1, readHeaders fuel rd h = (some (block.foldl recordLine h), rd1) ∧
        rd1.all = body := by
  induction block with
  | nil =>
    intro fuel rd h hf hall _
    obtain ⟨f, rfl⟩ : ∃ f, fuel = f + 1 := ⟨fuel - 1, by omega⟩
    have hc : cutLine 10 rd.all = some (t, body) := by
      rw [hall, List.flatten_nil, List.nil_append, cutLine_append, ht]
      simp
    obtain ⟨e1, e2⟩ := ReadString_some hc
    rw [readHeaders_succ]
    cases hr : rd.ReadString 10 with
    | mk o rd1 =>
      rw [hr] at e1 e2
      simp only at e1 e2
      subst e1
      exact ⟨rd1, by simp [hblank], e2⟩
  | cons l ls ih =>
    intro fuel rd h hf hall hblock
    obtain ⟨f, rfl⟩ : ∃ f, fuel = f + 1 := ⟨fuel - 1, by omega⟩
    obtain ⟨hl, hne⟩ := hblock l (by simp)
    have hc : cutLine 10 rd.all = some (l, ls.flatten ++ t ++ body) := by
      rw [hall, List.flatten_cons, List.append_assoc, List.append_assoc, cutLine_append, hl]
      simp
    obtain ⟨e1, e2⟩ := ReadString_some hc
    rw [readHeaders_succ]
    cases hr : rd.ReadString 10 with
    | mk o rd1 =>
      rw [hr] at e1 e2
      simp only at e1 e2
      subst e1
      simp only [hne, if_false, List.foldl_cons]
      exact ih f rd1 (recordLine h l) (by simpa using hf) e2
        (fun x hx => hblock x (by simp [hx]))

/-- C19, as stated, fails: in the stream `GET / HTTP/1.1`, `A: 1`, a line of one space and one
tab, `B: 2`, empty line, the line of spaces and tabs ends the header block: the map holds `A`
only and the reader is left in front of `B: 2`. -/
theorem blank_line_of_spaces_ends_headers :
    readRequest ⟨[], [ascii "GET / HTTP/1.1\r\nA: 1\r\n \t\r\nB: 2\r\n\r\n"]⟩ =
      (some ⟨ascii "GET", ascii "/", [(ascii "A", ascii "1")]⟩, ⟨ascii "B: 2\r\n\r\n", []⟩) ∧
    mapGet [(ascii "A", ascii "1")] (ascii "B") = none := by
  decide

/-- C19, amended: the Request Reader stops reading header lines at the first line that is
empty after trimming ALL surrounding white space (`strings.TrimSpace`), and only there: the
lines before it are folded into the map, each one inserted when it has a colon and ignored
otherwise, and the reader is left right after that line; a line made only of spaces and tabs
before its CR LF is such a line. -/
theorem header_block_ends_at_blank_line (rd : Reader) (line method path : Bytes)
    (more block : List Bytes) (t body : Bytes)
    (hall : rd.all = line ++ (block.flatten ++ t ++ body))
    (hline : cutLine 10 line = some (line, []))
    (hf : Fields line = method :: path :: more)
    (hblock : ∀ l ∈ block, cutLine 10 l = some (l, []) ∧ TrimSpace l ≠ [])
    (ht : cutLine 10 t = some (t, [])) (hblank : TrimSpace t = []) :
    (∃ rd1, readRequest rd = (some ⟨method, path, block.foldl recordLine []⟩, rd1) ∧
      rd1.all = body) ∧
    (∀ (h : Headers) (l : Bytes), recordLine h l =
      match cutByte 58 l with
      | some p => mapSet h (TrimSpace p.1) (TrimSpace p.2)
      | none => h) ∧
    (∀ w : Bytes, (∀ b ∈ w, b = 32 ∨ b = 9) → TrimSpace (w ++ [13, 10]) = []) := by
  refine ⟨?_, recordLine_eq, ?_⟩
  · have hc : cutLine 10 rd.all = some (line, block.flatten ++ t ++ body) := by
      rw [hall, cutLine_append, hline]
      simp
    obtain ⟨e1, e2⟩ := ReadString_some hc
    unfold readRequest
    cases hr : rd.ReadString 10 with
    | mk o rd1 =>
      rw [hr] at e1 e2
      simp only at e1 e2
      subst e1
      simp only [hf]
      have hlen : block.length < rd1.all.length + 1 := by
        have h1 := length_le_flatten block
          (fun l hl => (cutLine_eq_some (hblock l hl).1).2)
        rw [e2]
        simp only [List.length_append]
        omega
      obtain ⟨rd2, h2, h3⟩ := readHeaders_block t body ht hblank block _ rd1 [] hlen e2 hblock
      rw [h2]
      exact ⟨rd2, rfl, h3⟩
  · intro w hw
    apply TrimSpace_spaces
    intro b hb
    rcases List.mem_append.mp hb with hb | hb
    · rcases hw b hb with rfl | rfl <;> rfl
    · simp only [List.mem_cons, List.mem_singleton, List.not_mem_nil, or_false] at hb
      rcases hb with rfl | rfl <;> rfl

theorem header_block_ends_at_blank_line_witness :
    (∃ rd1, readRequest ⟨[], [ascii "GET / HTTP/1.1\r\nA: 1\r\nnone\r\n", ascii " \t\r\nB: 2\r\n\r\n"]⟩ =
        (some ⟨ascii "GET", ascii "/", [ascii "A: 1\r\n", ascii "none\r\n"].foldl recordLine []⟩,
          rd1) ∧
      rd1.all = ascii "B: 2\r\n\r\n") ∧
    (∀ (h : Headers) (l : Bytes), recordLine h l =
      match cutByte 58 l with
      | some p => mapSet h (TrimSpace p.1) (TrimSpace p.2)
      | none => h) ∧
    (∀ w : Bytes, (∀ b ∈ w, b = 32 ∨ b = 9) → TrimSpace (w ++ [13, 10]) = []) :=
  header_block_ends_at_blank_line
    ⟨[], [ascii "GET / HTTP/1.1\r\nA: 1\r\nnone\r\n", ascii " \t\r\nB: 2\r\n\r\n"]⟩
    (ascii "GET / HTTP/1.1\r\n") (ascii "GET") (ascii "/") [ascii "HTTP/1.1"]
    [ascii "A: 1\r\n", ascii "none\r\n"] (ascii " \t\r\n") (ascii "B: 2\r\n\r\n")
    (by decide) (by decide) (by decide) (by decide) (by decide) (by decide)

end HttpServer
